import Mathlib

/-!
Verification development for the jim-g fivem map collision finder.

The repository contains three near-identical Python pipelines; the central one
(modelled here in full) is `find_collisions` from
`Jim-G_fivem-map-collision-finder_v3_.exe_build/jim_g_collision_gui.py`.
The walk output of `os.walk` is modelled as a list of directories, each with
its path components relative to the scan root and the regular files it holds.
A file's MD5 digest is abstracted as an injective fingerprint of its content,
stored in the file model (`FsFile.digest`); `none` models an I/O failure while
reading (the `except` branch of `get_file_hash`).  `fnmatch.fnmatch` is
modelled by compiling the glob pattern to a token list (mirroring
`fnmatch.translate`) and running a matcher; both functions carry a fuel
argument so that they are structurally recursive and kernel-evaluable; the
fuel passed at the entry point strictly exceeds the maximal recursion depth
(every recursive call strictly decreases the summed lengths of the remaining
pattern and string), so the fuel-exhaustion branch is unreachable.
-/

namespace JimG

/-! ## String primitives (mirroring the Python string operations used) -/

/-- Embeds Python `str.lower()` (the scanned names are ASCII, where both agree). -/
def str_lower (s : String) : String := String.mk (s.data.map Char.toLower)

/-- Embeds Python `str.upper()`. -/
def str_upper (s : String) : String := String.mk (s.data.map Char.toUpper)

/-- Embeds Python `str.endswith(suffix)`. -/
def str_endswith (s suffix : String) : Bool := List.isSuffixOf suffix.data s.data

/-- The extension part of Python `os.path.splitext(p)[1]` for a bare filename
(no path separators): the substring from the last dot on, unless every
character before that dot is itself a dot (leading-dot files have no
extension). -/
def splitAtLastDot : List Char → Option (List Char × List Char)
  | [] => none
  | c :: rest =>
    match splitAtLastDot rest with
    | some (b, a) => some (c :: b, a)
    | none => if c = '.' then some ([], rest) else none

def splitext_ext (s : String) : String :=
  match splitAtLastDot s.data with
  | some (before, after) =>
    if before.any (fun c => c != '.') then String.mk ('.' :: after) else ""
  | none => ""

/-! ## Glob matching (embedding of `fnmatch.fnmatch` on lower-cased input) -/

/-- Character-set membership for a compiled `[...]` set, with `a-b` ranges,
as in the regular expression `fnmatch.translate` produces. -/
def setMatches : List Char → Char → Bool
  | [], _ => false
  | a :: '-' :: b :: rest, c => (decide (a ≤ c) && decide (c ≤ b)) || setMatches rest c
  | a :: rest, c => (a == c) || setMatches rest c

/-- Splits a bracket-set body at the closing `]`; `none` when unclosed. -/
def splitSet : List Char → Option (List Char × List Char)
  | [] => none
  | c :: cs =>
    if c = ']' then some ([], cs)
    else (splitSet cs).map (fun p => (c :: p.1, p.2))

def parseSetCore (neg : Bool) (cs : List Char) : Option (Bool × List Char × List Char) :=
  match cs with
  | [] => none
  | c :: rest =>
    if c = ']' then (splitSet rest).map (fun p => (neg, ']' :: p.1, p.2))
    else (splitSet (c :: rest)).map (fun p => (neg, p.1, p.2))

/-- Parses the body of a `[...]` glob set, as `fnmatch.translate` does: a
leading `!` negates, a `]` right after that is a literal member, an unclosed
set means the `[` is a literal character. -/
def parseSet (cs : List Char) : Option (Bool × List Char × List Char) :=
  match cs with
  | [] => parseSetCore false []
  | c :: rest => if c = '!' then parseSetCore true rest else parseSetCore false (c :: rest)

inductive GlobTok where
  | star : GlobTok
  | anyChar : GlobTok
  | lit : Char → GlobTok
  | set : Bool → List Char → GlobTok
deriving DecidableEq

/-- Compiles a glob pattern to tokens (the analogue of `fnmatch.translate`).
Each step consumes at least one pattern character, so fuel equal to the
pattern length plus one is never exhausted. -/
def translateGlobF : Nat → List Char → List GlobTok
  | 0, _ => []
  | _, [] => []
  | fuel + 1, c :: ps =>
    if c = '*' then GlobTok.star :: translateGlobF fuel ps
    else if c = '?' then GlobTok.anyChar :: translateGlobF fuel ps
    else if c = '[' then
      match parseSet ps with
      | some (neg, spec, rest) => GlobTok.set neg spec :: translateGlobF fuel rest
      | none => GlobTok.lit '[' :: translateGlobF fuel ps
    else GlobTok.lit c :: translateGlobF fuel ps

/-- Runs the compiled pattern against the character list (full match, like the
`\Z`-anchored regex `fnmatch` compiles).  Every recursive call strictly
decreases the summed lengths of the token list and the character list, so
fuel strictly above that sum is never exhausted. -/
def tokMatchF : Nat → List GlobTok → List Char → Bool
  | 0, _, _ => false
  | _, [], [] => true
  | _, [], _ :: _ => false
  | fuel + 1, t :: ts, cs =>
    match t, cs with
    | GlobTok.star, [] => tokMatchF fuel ts []
    | GlobTok.star, c :: cs' =>
      tokMatchF fuel ts (c :: cs') || tokMatchF fuel (GlobTok.star :: ts) cs'
    | GlobTok.anyChar, [] => false
    | GlobTok.anyChar, _ :: cs' => tokMatchF fuel ts cs'
    | GlobTok.set _ _, [] => false
    | GlobTok.set neg spec, c :: cs' => ((setMatches spec c) != neg) && tokMatchF fuel ts cs'
    | GlobTok.lit _, [] => false
    | GlobTok.lit p, c :: cs' => (p == c) && tokMatchF fuel ts cs'

/-- Embeds `fnmatch.fnmatch(nameLower, pat)` (both caller-side inputs are
already lower-cased, so the `normcase` normalisation is the identity). -/
def fnmatch (nameLower pat : String) : Bool :=
  let ts := translateGlobF (pat.data.length + 1) pat.data
  tokMatchF (ts.length + nameLower.data.length + 1) ts nameLower.data

/-! ## Data model of the scanned tree -/

/-- A regular file as the scan sees it: its name and the MD5 hexdigest the
hasher would produce for its content (`none` models an I/O failure while
reading; a real hexdigest is a nonempty hex string, and the digest function
is injective on contents for the purposes of this analysis). -/
structure FsFile where
  name : String
  digest : Option String
deriving DecidableEq

/-- Embeds `get_file_hash` (`jim_g_collision_gui.py` lines 33-42): streams the
file and returns the MD5 hexdigest, or `None` when reading raises. -/
def get_file_hash (f : FsFile) : Option String := f.digest

/-- One directory yielded by `os.walk(directory)`: its path components
relative to the scan root (`[]` is the root itself) and its files, in
discovery order. -/
structure WalkDir where
  parts : List String
  files : List FsFile
deriving DecidableEq

/-- `os.path.relpath(root, directory).split(os.path.sep)` for a walked
directory: the root itself has relative path `"."`. -/
def relpath_parts (parts : List String) : List String :=
  if parts = [] then ["."] else parts

/-- Resource name in the GUI variant (`jim_g_collision_gui.py` lines 59-60):
first component of the directory's relative path unless it is `"."`, in which
case the sentinel `"ROOT_DIR"`. -/
def resource_name_gui (parts : List String) : String :=
  match relpath_parts parts with
  | [] => "ROOT_DIR"
  | p :: _ => if p ≠ "." then p else "ROOT_DIR"

/-- Resource name in the v3 CLI variant (`jim_g_collision_checker.py` of the
`.exe_build` directory, lines 58-59): first component of the relative path,
with a dead `"ROOT_DIR"` fallback (`split` never returns an empty list). -/
def resource_name_v3cli (parts : List String) : String :=
  match relpath_parts parts with
  | [] => "ROOT_DIR"
  | p :: _ => p

/-- A matched file collected by the walk loop (one entry of `file_list`). -/
structure Candidate where
  dirParts : List String
  file : FsFile
  filename_lower : String
  resource : String
deriving DecidableEq

def mkCandidate (d : WalkDir) (f : FsFile) : Candidate :=
  ⟨d.parts, f, str_lower f.name, resource_name_gui d.parts⟩

def mkCandidateV3 (d : WalkDir) (f : FsFile) : Candidate :=
  ⟨d.parts, f, str_lower f.name, resource_name_v3cli d.parts⟩

def lightmap_patterns : List String := ["lodlights*.ymap", "vw_*.ymap"]

/-- The light-map test of the GUI walk loop (`jim_g_collision_gui.py` line
63). -/
def is_lightmap (excl : Bool) (nameLower : String) : Bool :=
  excl && str_endswith nameLower (".ymap") && lightmap_patterns.any (fun p => fnmatch nameLower p)

def file_matches (pats : List String) (nameLower : String) : Bool :=
  pats.any (fun p => fnmatch nameLower p)

/-- The walk/filter phase of the GUI `find_collisions` (lines 58-72): every
file of every walked directory, skipping light maps when the exclusion is on,
keeping the files whose lower-cased name matches some include pattern. -/
def collect_files (dirs : List WalkDir) (pats : List String) (excl : Bool) : List Candidate :=
  dirs.flatMap (fun d =>
    (d.files.filter (fun f =>
      !(is_lightmap excl (str_lower f.name)) && file_matches pats (str_lower f.name))).map
      (mkCandidate d))

/-- The same walk/filter phase as written in the v3 CLI variant (lines 57-78
of the `.exe_build` checker), which differs only in the resource-name
computation. -/
def collect_files_v3cli (dirs : List WalkDir) (pats : List String) (excl : Bool) : List Candidate :=
  dirs.flatMap (fun d =>
    (d.files.filter (fun f =>
      !(is_lightmap excl (str_lower f.name)) && file_matches pats (str_lower f.name))).map
      (mkCandidateV3 d))

/-! ## Hash grouping and classification (GUI `find_collisions`, lines 73-109) -/

/-- One record of `file_info_dict`: relative path components (the original
filename keeps its case), hexdigest, resource. -/
structure FileInfo where
  path : List String
  hash : String
  resource : String
deriving DecidableEq

abbrev FileInfoDict := List (String × List FileInfo)

def mkFileInfo (c : Candidate) (h : String) : FileInfo :=
  ⟨c.dirParts ++ [c.file.name], h, c.resource⟩

/-- `defaultdict(list)` keyed by lower-cased filename, insertion-ordered:
appending a record to the (first) entry with the given key, or a new entry at
the end. -/
def insertGroup (d : FileInfoDict) (k : String) (i : FileInfo) : FileInfoDict :=
  match d with
  | [] => [(k, [i])]
  | (k', l) :: rest =>
    if k' = k then (k', l ++ [i]) :: rest else (k', l) :: insertGroup rest k i

/-- The body of the hashing loop for one candidate (lines 81-91): a record is
added only when `get_file_hash` returns a truthy (non-`None`, nonempty)
digest. -/
def build_step (d : FileInfoDict) (c : Candidate) : FileInfoDict :=
  match get_file_hash c.file with
  | some h => if h ≠ "" then insertGroup d c.filename_lower (mkFileInfo c h) else d
  | none => d

def build_file_info_dict (cands : List Candidate) : FileInfoDict :=
  cands.foldl build_step []

/-- `len(set(info['hash'] for info in infos))`: the number of distinct
content hashes in a group. -/
def distinctHashCount (l : List FileInfo) : Nat :=
  ((l.map FileInfo.hash).dedup).length

def isConflictGroup (l : List FileInfo) : Bool := decide (1 < distinctHashCount l)

/-- `os.path.splitext(filename)[1].upper()`: the bucket key of a filename. -/
def extKey (fname : String) : String := str_upper (splitext_ext fname)

/-- One extension bucket of `categorized_results`. -/
structure ExtBucket where
  conflicts : List (String × List FileInfo)
  duplicates : List (String × List FileInfo)
deriving DecidableEq

abbrev CategorizedResults := List (String × ExtBucket)

def emptyBucket : ExtBucket := ⟨[], []⟩

/-- `dict[filename].extend(infos)` on an insertion-ordered mapping. -/
def extendGroup (m : List (String × List FileInfo)) (k : String) (l : List FileInfo) :
    List (String × List FileInfo) :=
  match m with
  | [] => [(k, l)]
  | (k', l') :: rest =>
    if k' = k then (k', l' ++ l) :: rest else (k', l') :: extendGroup rest k l

/-- Access-creates semantics of the outer `defaultdict`: apply `f` to the
bucket under `e`, creating an empty bucket at the end when absent. -/
def updateBucket (res : CategorizedResults) (e : String) (f : ExtBucket → ExtBucket) :
    CategorizedResults :=
  match res with
  | [] => [(e, f emptyBucket)]
  | (e', b) :: rest =>
    if e' = e then (e', f b) :: rest else (e', b) :: updateBucket rest e f

def addConflict (res : CategorizedResults) (e k : String) (l : List FileInfo) :
    CategorizedResults :=
  updateBucket res e (fun b => ⟨extendGroup b.conflicts k l, b.duplicates⟩)

def addDuplicate (res : CategorizedResults) (e k : String) (l : List FileInfo) :
    CategorizedResults :=
  updateBucket res e (fun b => ⟨b.conflicts, extendGroup b.duplicates k l⟩)

/-- The classification loop body (lines 100-107): groups of size ≥ 2 go wholly
to `conflicts` when more than one distinct hash is present, else wholly to
`duplicates`, bucketed by uppercased extension. -/
def classify_step (res : CategorizedResults) (kv : String × List FileInfo) :
    CategorizedResults :=
  if 1 < kv.2.length then
    if isConflictGroup kv.2 then addConflict res (extKey kv.1) kv.1 kv.2
    else addDuplicate res (extKey kv.1) kv.1 kv.2
  else res

def classify (d : FileInfoDict) : CategorizedResults := d.foldl classify_step []

/-! ## The GUI `find_collisions` entry point (lines 44-109) -/

/-- The triple returned by `find_collisions`, together with the sequence of
`(percentage, message)` progress-callback invocations observed during the
scan (empty when no callback was supplied). -/
structure ScanOutput where
  results : CategorizedResults
  files_to_search_list : List String
  ignored_patterns_list : List String
  progress : List (Nat × String)
deriving DecidableEq

/-- The keys of the `ALL_MAP_RELATED_FILES` configuration dictionary, in
insertion order. -/
def ALL_MAP_RELATED_FILES_keys : List String :=
  ["*.ymap", "light_ymaps", "*.ybn", "*.ymt", "*.ytd", "*.ydr", "*.ydd", "*.ytyp",
    "*.ycd", "*.ynv", "*.ypt"]

/-- One iteration of the hashing loop carrying the progress state: the dict,
`current_progress`, and the emitted callback trace.  The percentage
`10 + int((current / total) * 80)` is embedded as natural floor division
(both are monotone in `current`; they agree whenever the float computation is
exact, in particular at `current = total`). -/
def hash_step (hasCb : Bool) (total : Nat)
    (st : FileInfoDict × Nat × List (Nat × String)) (c : Candidate) :
    FileInfoDict × Nat × List (Nat × String) :=
  let d := build_step st.1 c
  let cur := st.2.1 + 1
  let tr :=
    if hasCb then
      st.2.2 ++ [(10 + cur * 80 / total,
        "Hashing files: " ++ toString cur ++ "/" ++ toString total)]
    else st.2.2
  (d, cur, tr)

/-- Embeds the GUI `find_collisions(directory, file_patterns,
lightmap_exclusion, progress_callback)`.  `hasCb` is whether a callback was
supplied; the walk output of `os.walk(directory)` is the `dirs` argument. -/
def find_collisions (dirs : List WalkDir) (file_patterns : List String)
    (lightmap_exclusion : Bool) (hasCb : Bool) : ScanOutput :=
  let ignored0 := ALL_MAP_RELATED_FILES_keys.filter
    (fun p => !(file_patterns.contains p) && p != "light_ymaps")
  let files_to_search_list :=
    if lightmap_exclusion then file_patterns
    else if file_patterns.contains ("*.ymap") then file_patterns ++ ["light_ymaps"]
    else file_patterns
  let ignored_patterns_list :=
    if lightmap_exclusion then ignored0 ++ ["light_ymaps_ignored"] else ignored0
  let trace0 : List (Nat × String) :=
    if hasCb then [(5, "Collecting file paths...")] else []
  let file_list := collect_files dirs file_patterns lightmap_exclusion
  let total_files := file_list.length
  if total_files = 0 then
    { results := [], files_to_search_list := files_to_search_list,
      ignored_patterns_list := ignored_patterns_list,
      progress := trace0 ++ (if hasCb then [(100, "No relevant files found.")] else []) }
  else
    let st := file_list.foldl (hash_step hasCb total_files)
      (([] : FileInfoDict), 0, ([] : List (Nat × String)))
    { results := classify st.1, files_to_search_list := files_to_search_list,
      ignored_patterns_list := ignored_patterns_list,
      progress := trace0 ++ st.2.2 ++
        (if hasCb then [(95, "Analyzing results...")] else []) }

/-- The aggregate counters the GUI derives from the result
(`run_checker`, lines 578-579): `sum(len(data['conflicts']) ...)`. -/
def total_conflicts_of (res : CategorizedResults) : Nat :=
  (res.map (fun kv => kv.2.conflicts.length)).sum

def total_duplicates_of (res : CategorizedResults) : Nat :=
  (res.map (fun kv => kv.2.duplicates.length)).sum

/-! ## The v2 CLI classification loop with its counters
(`Jim-G_fivem-map-collision-finder_v2_.bat/jim_g_collision_checker.py`,
lines 405-417) -/

/-- One iteration of the v2 loop: same bucket updates, but the conflict
counter advances by `len(unique_hashes)` and the duplicate counter by 1. -/
def v2_classify_step (st : CategorizedResults × Nat × Nat)
    (kv : String × List FileInfo) : CategorizedResults × Nat × Nat :=
  if 1 < kv.2.length then
    if isConflictGroup kv.2 then
      (addConflict st.1 (extKey kv.1) kv.1 kv.2, st.2.1 + distinctHashCount kv.2, st.2.2)
    else
      (addDuplicate st.1 (extKey kv.1) kv.1 kv.2, st.2.1, st.2.2 + 1)
  else st

/-- The v2 classification phase applied to a built `file_info_dict`,
returning `(categorized_results, total_conflicts, total_duplicates)`. -/
def find_collisions_v2_classify (d : FileInfoDict) : CategorizedResults × Nat × Nat :=
  d.foldl v2_classify_step ([], 0, 0)

/-! ## The v3 CLI Lua report (`.exe_build/jim_g_collision_checker.py`,
`_generate_lua_report`, lines 352-395) -/

/-- Python string comparison (code-point lexicographic) as a Bool. -/
def charListLe : List Char → List Char → Bool
  | [], _ => true
  | _ :: _, [] => false
  | a :: as, b :: bs => if a < b then true else if b < a then false else charListLe as bs

def insertSorted (le : α → α → Bool) (a : α) : List α → List α
  | [] => [a]
  | b :: bs => if le a b then a :: b :: bs else b :: insertSorted le a bs

/-- A stable ascending sort (the observable behaviour of Python `sorted` on a
list with pairwise-distinct keys). -/
def sortedBy (le : α → α → Bool) (l : List α) : List α :=
  l.foldr (insertSorted le) []

def extLe (a b : String × ExtBucket) : Bool := charListLe a.1.data b.1.data

/-- Python left-justify string formatting to the given width with spaces. -/
def ljust (s : String) (w : Nat) : String :=
  s ++ String.mk (List.replicate (w - s.data.length) ' ')

/-- Joins relative-path components for display; `"/"` stands for `os.sep`. -/
def path_string (parts : List String) : String := String.intercalate ("/") parts

def lua_separator : String :=
  String.mk (List.replicate 2 '-') ++ String.mk (List.replicate 252 '#') ++
    String.mk (List.replicate 2 '-')

def lua_group_lines (groups : List (String × List FileInfo)) : List String :=
  groups.flatMap (fun kv =>
    ("  -- - File: " ++ kv.1) ::
      kv.2.map (fun it =>
        "    - Resource: " ++ ljust it.resource 25 ++ " Path: " ++ path_string it.path))

/-- One iteration of the report's per-extension loop, carrying the emitted
lines, the loop variable `data` (rebound on every iteration, even ones the
`continue` skips), and the `is_first_category` flag. -/
def lua_report_step (st : List String × Option ExtBucket × Bool)
    (kv : String × ExtBucket) : List String × Option ExtBucket × Bool :=
  let lastData := some kv.2
  if kv.2.conflicts.isEmpty && kv.2.duplicates.isEmpty then (st.1, lastData, st.2.2)
  else
    let lines := if !st.2.2 then st.1 ++ [lua_separator] else st.1
    let lines := lines ++ ["-- --- " ++ kv.1 ++ " Collisions ---"]
    let lines :=
      if !kv.2.conflicts.isEmpty then
        lines ++ [" -- [CRITICAL CONFLICTS] (Same Name, Different Content)"] ++
          lua_group_lines kv.2.conflicts
      else lines
    let lines :=
      if !kv.2.duplicates.isEmpty then
        lines ++ [" -- [Redundant Duplicates] (Same Name, Identical Content)"] ++
          lua_group_lines kv.2.duplicates
      else lines
    (lines, lastData, false)

/-- The header lines of the Lua report (the `datetime.now()` timestamp is the
`scan_time` argument). -/
def lua_header_lines (directory scan_time : String)
    (files_to_search ignored_patterns : List String) : List String :=
  let searched0 := files_to_search.filter (fun p => p != "light_ymaps")
  let searched :=
    if !(ignored_patterns.contains ("light_ymaps_ignored")) then
      searched0 ++ ["*.ymap (including lights)"]
    else searched0
  let ignored0 := ignored_patterns.filter (fun p => p != "light_ymaps_ignored")
  let ignored :=
    if ignored_patterns.contains ("light_ymaps_ignored") then
      ignored0 ++ ["lodlights*.ymap/vw_*.ymap"]
    else ignored0
  ["-- ###################################################",
    "-- #       JIM-G FIVEM MAP COLLISION REPORT (LUA)    #",
    "-- ###################################################",
    "-- Scan Time: " ++ scan_time,
    "-- Target Directory: " ++ directory,
    "-- File Patterns Searched: " ++
      (if !searched.isEmpty then String.intercalate (", ") searched else "NONE"),
    "-- File Patterns Ignored: " ++
      (if !ignored.isEmpty then String.intercalate (", ") ignored else "NONE"),
    "\n"]

/-- Embeds the v3 CLI `_generate_lua_report` as the list of lines it joins.
The final summary reads the loop variable `data` after the per-extension
loop; when `categorized_results` is empty that variable was never bound, and
the Python function raises `NameError` — modelled as `none`.  The
`total_conflicts` and `total_duplicates` arguments are accepted (as in the
source signature) but never used by the summary. -/
def generate_lua_report_v3_lines (directory scan_time : String)
    (categorized_results : CategorizedResults)
    (total_conflicts total_duplicates : Nat)
    (files_to_search ignored_patterns : List String) : Option (List String) :=
  let header := lua_header_lines directory scan_time files_to_search ignored_patterns
  let st := (sortedBy extLe categorized_results).foldl lua_report_step (header, none, true)
  match st.2.1 with
  | none => none
  | some data =>
    some (st.1 ++
      ["\n", "-- --- Final Summary ---",
        "-- Total Critical Conflicts Found: " ++ toString data.conflicts.length,
        "-- Total Redundant Duplicates Found: " ++ toString data.duplicates.length,
        "-- ###################################################"])

/-- The joined report string (`'\n'.join(lua_output_lines)`). -/
def generate_lua_report_v3 (directory scan_time : String)
    (categorized_results : CategorizedResults)
    (total_conflicts total_duplicates : Nat)
    (files_to_search ignored_patterns : List String) : Option String :=
  (generate_lua_report_v3_lines directory scan_time categorized_results
      total_conflicts total_duplicates files_to_search ignored_patterns).map
    (String.intercalate ("\n"))

/-! ## Spec-side definitions (what the specification asserts, for
comparison with the embedded code) -/

/-- Spec-side count of conflict groups: filenames whose group has size ≥ 2
and more than one distinct content hash. -/
def countConflictGroups (d : FileInfoDict) : Nat :=
  (d.filter (fun kv => decide (1 < kv.2.length) && isConflictGroup kv.2)).length

/-- Spec-side count of duplicate groups: filenames whose group has size ≥ 2
and exactly one distinct content hash repeated. -/
def countDuplicateGroups (d : FileInfoDict) : Nat :=
  (d.filter (fun kv => decide (1 < kv.2.length) && !(isConflictGroup kv.2))).length

/-- What the v2 conflict counter actually computes: the sum, over conflict
groups, of the number of distinct hashes in the group. -/
def v2ConflictSum (d : FileInfoDict) : Nat :=
  ((d.filter (fun kv => decide (1 < kv.2.length) && isConflictGroup kv.2)).map
    (fun kv => distinctHashCount kv.2)).sum

/-- The records a filename group would hold, read off the candidate list in
discovery order: exactly the successfully hashed candidates with that
lower-cased filename. -/
def groupList (cands : List Candidate) (k : String) : List FileInfo :=
  cands.filterMap (fun c =>
    match get_file_hash c.file with
    | some h => if h ≠ "" ∧ c.filename_lower = k then some (mkFileInfo c h) else none
    | none => none)

/-- The walked tree with the unreadable files removed. -/
def dropUnreadable (dirs : List WalkDir) : List WalkDir :=
  dirs.map (fun d => ⟨d.parts, d.files.filter (fun f => (get_file_hash f).isSome)⟩)

def keysOf (d : List (String × α)) : List String := d.map Prod.fst

/-- One hashing-loop callback invocation: percentage and message for the
`j`-th hashed file out of `total`. -/
def hash_msg (j total : Nat) : Nat × String :=
  (10 + j * 80 / total, "Hashing files: " ++ toString j ++ "/" ++ toString total)

/-- All filenames mentioned by a bucket, in either mapping. -/
def bucketFnames (b : ExtBucket) : List String :=
  keysOf b.conflicts ++ keysOf b.duplicates

/-- All filenames mentioned anywhere in a categorized result. -/
def allFnames (res : CategorizedResults) : List String :=
  res.flatMap (fun kv => bucketFnames kv.2)

/-- Soundness invariant for the classification fold: everything a result
accumulated so far is a full filename group of the dict `D`, of size ≥ 2,
placed in the mapping its distinct-hash count dictates, under the bucket of
its uppercased extension. -/
def SoundAcc (D : FileInfoDict) (res : CategorizedResults) : Prop :=
  ∀ e b, List.lookup e res = some b →
    (∀ k l, (k, l) ∈ b.conflicts →
      e = extKey k ∧ List.lookup k D = some l ∧ 1 < l.length ∧ isConflictGroup l = true) ∧
    (∀ k l, (k, l) ∈ b.duplicates →
      e = extKey k ∧ List.lookup k D = some l ∧ 1 < l.length ∧ isConflictGroup l = false)

/-! ## Concrete walk trees used to instantiate the theorems -/

/-- The spec's concrete scenario: `resA/building.ymap` (hash `H1`),
`resB/building.ymap` (hash `H1`), `resC/building.ymap` (hash `H2`). -/
def walkBuilding : List WalkDir :=
  [⟨["resA"], [⟨"building.ymap", some ("H1")⟩]⟩,
   ⟨["resB"], [⟨"building.ymap", some ("H1")⟩]⟩,
   ⟨["resC"], [⟨"building.ymap", some ("H2")⟩]⟩]

/-- The group the scenario's three records form, in discovery order. -/
def buildingInfos : List FileInfo :=
  [⟨["resA", "building.ymap"], "H1", "resA"⟩,
   ⟨["resB", "building.ymap"], "H1", "resB"⟩,
   ⟨["resC", "building.ymap"], "H2", "resC"⟩]

def normalFile : FsFile := ⟨"normal.ymap", some ("N1")⟩

/-- The spec's light-map scenario: `lodlights_01.ymap`, `vw_lights.ymap` and
`normal.ymap` in one resource. -/
def lightsDir : WalkDir :=
  ⟨["res1"], [⟨"lodlights_01.ymap", some ("L1")⟩, ⟨"vw_lights.ymap", some ("L2")⟩,
    normalFile]⟩

def walkLights : List WalkDir := [lightsDir]

def rootFileDemo : FsFile := ⟨"a.ymap", some ("h1")⟩

def rootDirDemo : WalkDir := ⟨[], [rootFileDemo]⟩

/-- A tree with one file directly in the scan root. -/
def walkRootFile : List WalkDir := [rootDirDemo]

/-- A reachable grouping dict with one two-member conflict group holding two
distinct hashes. -/
def conflictPairDict : FileInfoDict :=
  [("a.ymap", [⟨["r1", "a.ymap"], "H1", "r1"⟩, ⟨["r2", "a.ymap"], "H2", "r2"⟩])]

/-- A categorized result with one conflict bucket and one duplicate bucket. -/
def demoCats : CategorizedResults :=
  [(".YMAP", ⟨[("building.ymap", buildingInfos)], []⟩),
   (".YBN", ⟨[], [("b.ybn", [⟨["r1", "b.ybn"], "K", "r1"⟩,
      ⟨["r2", "b.ybn"], "K", "r2"⟩])]⟩)]

/-- A tree containing an unreadable file next to readable ones. -/
def walkUnreadable : List WalkDir :=
  [⟨["resA"], [⟨"a.ymap", some ("H1")⟩, ⟨"locked.ymap", none⟩]⟩,
   ⟨["resB"], [⟨"a.ymap", some ("H2")⟩]⟩]

/-! ## Lemmas: association-list lookups and the grouping fold -/

theorem lookup_cons {β} (k k' : String) (v : β) (d : List (String × β)) :
    List.lookup k ((k', v) :: d) = if k = k' then some v else List.lookup k d := by
  by_cases h : k = k'
  · subst h
    simp [List.lookup]
  · simp only [List.lookup, beq_false_of_ne h, if_neg h]

theorem keysOf_cons {β} (k : String) (v : β) (d : List (String × β)) :
    keysOf ((k, v) :: d) = k :: keysOf d := rfl

theorem lookup_insertGroup_self (d : FileInfoDict) (k : String) (i : FileInfo) :
    List.lookup k (insertGroup d k i) = some (((List.lookup k d).getD []) ++ [i]) := by
  induction d with
  | nil => simp [insertGroup, lookup_cons]
  | cons kv rest ih =>
    obtain ⟨k', l⟩ := kv
    by_cases h : k' = k
    · subst h
      simp [insertGroup, lookup_cons]
    · have h' : k ≠ k' := fun e => h e.symm
      simp [insertGroup, h, lookup_cons, h', ih]

theorem lookup_insertGroup_ne (d : FileInfoDict) (k k' : String) (i : FileInfo)
    (h : k' ≠ k) : List.lookup k' (insertGroup d k i) = List.lookup k' d := by
  induction d with
  | nil => simp [insertGroup, lookup_cons, h]
  | cons kv rest ih =>
    obtain ⟨k'', l⟩ := kv
    by_cases h2 : k'' = k
    · subst h2
      simp [insertGroup, lookup_cons, h]
    · by_cases h3 : k' = k''
      · subst h3
        simp [insertGroup, h2, lookup_cons]
      · simp [insertGroup, h2, lookup_cons, h3, ih]

theorem keysOf_insertGroup (d : FileInfoDict) (k : String) (i : FileInfo) :
    keysOf (insertGroup d k i) =
      if k ∈ keysOf d then keysOf d else keysOf d ++ [k] := by
  induction d with
  | nil => simp [insertGroup, keysOf]
  | cons kv rest ih =>
    obtain ⟨k', l⟩ := kv
    by_cases h : k' = k
    · subst h
      simp [insertGroup, keysOf]
    · have h' : k ≠ k' := fun e => h e.symm
      rw [show insertGroup ((k', l) :: rest) k i = (k', l) :: insertGroup rest k i by
        simp [insertGroup, h]]
      rw [keysOf_cons, keysOf_cons, ih]
      by_cases hm : k ∈ keysOf rest
      · simp [hm, h']
      · simp [hm, h']

theorem nodup_keysOf_insertGroup {d : FileInfoDict} {k : String} {i : FileInfo}
    (h : (keysOf d).Nodup) : (keysOf (insertGroup d k i)).Nodup := by
  rw [keysOf_insertGroup]
  by_cases hm : k ∈ keysOf d
  · simpa [hm] using h
  · rw [if_neg hm]
    refine List.Nodup.append h (List.nodup_singleton k) ?_
    intro a ha hb
    rw [List.mem_singleton] at hb
    subst hb
    exact hm ha

theorem nodup_keysOf_foldl_build (cands : List Candidate) :
    ∀ d : FileInfoDict, (keysOf d).Nodup → (keysOf (cands.foldl build_step d)).Nodup := by
  induction cands with
  | nil => intro d hd; simpa using hd
  | cons c rest ih =>
    intro d hd
    simp only [List.foldl_cons]
    apply ih
    unfold build_step
    cases hh : get_file_hash c.file with
    | none => exact hd
    | some h =>
      by_cases he : h ≠ "" <;> simp [he]
      · exact nodup_keysOf_insertGroup hd
      · exact hd

theorem nodup_keysOf_build (cands : List Candidate) :
    (keysOf (build_file_info_dict cands)).Nodup :=
  nodup_keysOf_foldl_build cands [] (by simp [keysOf])

theorem lookup_foldl_build (cands : List Candidate) :
    ∀ (d : FileInfoDict) (k : String),
      List.lookup k (cands.foldl build_step d) =
        match List.lookup k d with
        | some l => some (l ++ groupList cands k)
        | none =>
          if groupList cands k = [] then none else some (groupList cands k) := by
  induction cands with
  | nil =>
    intro d k
    simp only [List.foldl_nil, groupList, List.filterMap_nil]
    cases List.lookup k d <;> simp
  | cons c rest ih =>
    intro d k
    simp only [List.foldl_cons]
    rw [ih]
    cases hh : get_file_hash c.file with
    | none =>
      simp [build_step, hh, groupList, List.filterMap_cons]
    | some h =>
      by_cases he : h = ""
      · subst he
        simp [build_step, hh, groupList, List.filterMap_cons]
      · by_cases hk : c.filename_lower = k
        · subst hk
          rw [show build_step d c = insertGroup d c.filename_lower (mkFileInfo c h) by
            simp [build_step, hh, he]]
          rw [lookup_insertGroup_self]
          have hg : groupList (c :: rest) c.filename_lower =
              mkFileInfo c h :: groupList rest c.filename_lower := by
            simp [groupList, List.filterMap_cons, hh, he]
          rw [hg]
          cases List.lookup c.filename_lower d <;> simp
        · rw [show build_step d c = insertGroup d c.filename_lower (mkFileInfo c h) by
            simp [build_step, hh, he]]
          rw [lookup_insertGroup_ne d c.filename_lower k (mkFileInfo c h)
            (fun e => hk e.symm)]
          have hg : groupList (c :: rest) k = groupList rest k := by
            simp [groupList, List.filterMap_cons, hh, he, hk]
          rw [hg]

theorem lookup_build (cands : List Candidate) (k : String) :
    List.lookup k (build_file_info_dict cands) =
      if groupList cands k = [] then none else some (groupList cands k) := by
  have h := lookup_foldl_build cands [] k
  simpa [build_file_info_dict] using h

theorem mem_of_lookup {β} :
    ∀ {d : List (String × β)} {k : String} {v : β},
      List.lookup k d = some v → (k, v) ∈ d := by
  intro d
  induction d with
  | nil => intro k v h; simp [List.lookup] at h
  | cons kv rest ih =>
    intro k v h
    obtain ⟨k', v'⟩ := kv
    rw [lookup_cons] at h
    by_cases he : k = k'
    · simp [he] at h
      subst he
      subst h
      exact List.mem_cons_self _ _
    · simp [he] at h
      exact List.mem_cons_of_mem _ (ih h)

theorem lookup_of_mem_nodup {β} :
    ∀ {d : List (String × β)}, (keysOf d).Nodup →
      ∀ {k : String} {v : β}, (k, v) ∈ d → List.lookup k d = some v := by
  intro d
  induction d with
  | nil => intro _ k v h; simp at h
  | cons kv rest ih =>
    intro hd k v h
    obtain ⟨k', v'⟩ := kv
    simp only [keysOf, List.map_cons, List.nodup_cons] at hd
    rcases List.mem_cons.mp h with he | ht
    · rw [Prod.mk.injEq] at he
      rw [lookup_cons, if_pos he.1]
      exact congrArg some he.2.symm
    · have hk : k ≠ k' := by
        intro e
        subst e
        exact hd.1 (by simpa [keysOf] using List.mem_map_of_mem Prod.fst ht)
      rw [lookup_cons, if_neg hk]
      exact ih hd.2 ht

theorem mem_of_getLastQ {α} :
    ∀ {l : List α} {x : α}, l.getLast? = some x → x ∈ l := by
  intro l
  induction l with
  | nil => intro x h; simp at h
  | cons a t ih =>
    intro x h
    cases t with
    | nil => simp_all
    | cons b t' =>
      rw [List.getLast?_cons_cons] at h
      exact List.mem_cons_of_mem _ (ih h)

/-! ## Lemmas: the hashing fold of `find_collisions` versus the pure fold -/

theorem hash_fold_dict (hasCb : Bool) (total : Nat) (cs : List Candidate) :
    ∀ (d : FileInfoDict) (cur : Nat) (tr : List (Nat × String)),
      (cs.foldl (hash_step hasCb total) (d, cur, tr)).1 = cs.foldl build_step d := by
  induction cs with
  | nil => intro d cur tr; rfl
  | cons c rest ih =>
    intro d cur tr
    simp only [List.foldl_cons]
    exact ih _ _ _

theorem hash_fold_cur (hasCb : Bool) (total : Nat) (cs : List Candidate) :
    ∀ (d : FileInfoDict) (cur : Nat) (tr : List (Nat × String)),
      (cs.foldl (hash_step hasCb total) (d, cur, tr)).2.1 = cur + cs.length := by
  induction cs with
  | nil => intro d cur tr; simp
  | cons c rest ih =>
    intro d cur tr
    simp only [List.foldl_cons, List.length_cons]
    rw [ih]
    simp [hash_step]
    omega

theorem hash_fold_trace (total : Nat) (cs : List Candidate) :
    ∀ (d : FileInfoDict) (cur : Nat) (tr : List (Nat × String)),
      (cs.foldl (hash_step true total) (d, cur, tr)).2.2 =
        tr ++ (List.range' (cur + 1) cs.length).map (fun j => hash_msg j total) := by
  induction cs with
  | nil => intro d cur tr; simp
  | cons c rest ih =>
    intro d cur tr
    simp only [List.foldl_cons, List.length_cons]
    rw [show hash_step true total (d, cur, tr) c =
        (build_step d c, cur + 1, tr ++ [hash_msg (cur + 1) total]) from rfl]
    rw [ih]
    rw [List.range'_succ]
    simp

theorem hash_fold_trace_false (total : Nat) (cs : List Candidate) :
    ∀ (d : FileInfoDict) (cur : Nat) (tr : List (Nat × String)),
      (cs.foldl (hash_step false total) (d, cur, tr)).2.2 = tr := by
  induction cs with
  | nil => intro d cur tr; rfl
  | cons c rest ih =>
    intro d cur tr
    simp only [List.foldl_cons]
    exact ih _ _ _

/-- The returned `categorized_results` of the GUI `find_collisions` is the
classification of the grouping dict built over the collected candidates,
whether or not a callback was supplied. -/
theorem find_collisions_results_eq (dirs : List WalkDir) (pats : List String)
    (excl hasCb : Bool) :
    (find_collisions dirs pats excl hasCb).results =
      classify (build_file_info_dict (collect_files dirs pats excl)) := by
  unfold find_collisions
  by_cases h : (collect_files dirs pats excl).length = 0
  · rw [if_pos h]
    have : collect_files dirs pats excl = [] := List.length_eq_zero.mp h
    simp [this, build_file_info_dict, classify]
  · rw [if_neg h]
    simp only
    rw [hash_fold_dict]
    rfl

theorem find_collisions_fts_eq (dirs : List WalkDir) (pats : List String)
    (excl hasCb : Bool) :
    (find_collisions dirs pats excl hasCb).files_to_search_list =
      (if excl then pats
        else if pats.contains ("*.ymap") then pats ++ ["light_ymaps"] else pats) := by
  unfold find_collisions
  by_cases h : (collect_files dirs pats excl).length = 0
  · rw [if_pos h]
  · rw [if_neg h]

theorem find_collisions_ignored_eq (dirs : List WalkDir) (pats : List String)
    (excl hasCb : Bool) :
    (find_collisions dirs pats excl hasCb).ignored_patterns_list =
      (let ignored0 := ALL_MAP_RELATED_FILES_keys.filter
        (fun p => !(pats.contains p) && p != "light_ymaps")
      if excl then ignored0 ++ ["light_ymaps_ignored"] else ignored0) := by
  unfold find_collisions
  by_cases h : (collect_files dirs pats excl).length = 0
  · rw [if_pos h]
  · rw [if_neg h]

/-- Shape of the progress trace when a callback is supplied and at least one
file matched. -/
theorem find_collisions_progress_shape (dirs : List WalkDir) (pats : List String)
    (excl : Bool) (h : collect_files dirs pats excl ≠ []) :
    (find_collisions dirs pats excl true).progress =
      (5, "Collecting file paths...") ::
        ((List.range' 1 (collect_files dirs pats excl).length).map
          (fun j => hash_msg j (collect_files dirs pats excl).length) ++
          [(95, "Analyzing results...")]) := by
  unfold find_collisions
  have hl : (collect_files dirs pats excl).length ≠ 0 := by
    simpa [List.length_eq_zero] using h
  rw [if_neg hl]
  simp only
  rw [hash_fold_trace]
  simp

/-- Shape of the progress trace when a callback is supplied and no file
matched. -/
theorem find_collisions_progress_empty (dirs : List WalkDir) (pats : List String)
    (excl : Bool) (h : collect_files dirs pats excl = []) :
    (find_collisions dirs pats excl true).progress =
      [(5, "Collecting file paths..."), (100, "No relevant files found.")] := by
  unfold find_collisions
  rw [if_pos (by simp [h])]
  simp

/-! ## Lemmas: bucket updates -/

theorem lookup_updateBucket_self (res : CategorizedResults) (e : String)
    (f : ExtBucket → ExtBucket) :
    List.lookup e (updateBucket res e f) =
      some (f ((List.lookup e res).getD emptyBucket)) := by
  induction res with
  | nil => simp [updateBucket, lookup_cons]
  | cons kv rest ih =>
    obtain ⟨e', b⟩ := kv
    by_cases h : e' = e
    · subst h
      simp [updateBucket, lookup_cons]
    · have h' : e ≠ e' := fun x => h x.symm
      simp [updateBucket, h, lookup_cons, h', ih]

theorem lookup_updateBucket_ne (res : CategorizedResults) (e e' : String)
    (f : ExtBucket → ExtBucket) (h : e' ≠ e) :
    List.lookup e' (updateBucket res e f) = List.lookup e' res := by
  induction res with
  | nil => simp [updateBucket, lookup_cons, h]
  | cons kv rest ih =>
    obtain ⟨e'', b⟩ := kv
    by_cases h2 : e'' = e
    · subst h2
      simp [updateBucket, lookup_cons, h]
    · by_cases h3 : e' = e''
      · subst h3
        simp [updateBucket, h2, lookup_cons]
      · simp [updateBucket, h2, lookup_cons, h3, ih]

theorem extendGroup_of_notMem {m : List (String × List FileInfo)} {k : String}
    (l : List FileInfo) (h : k ∉ keysOf m) : extendGroup m k l = m ++ [(k, l)] := by
  induction m with
  | nil => simp [extendGroup]
  | cons kv rest ih =>
    obtain ⟨k', l'⟩ := kv
    rw [keysOf_cons, List.mem_cons] at h
    push_neg at h
    have hne : ¬ k' = k := fun e => h.1 e.symm
    rw [show extendGroup ((k', l') :: rest) k l = (k', l') :: extendGroup rest k l by
      simp [extendGroup, hne]]
    rw [ih h.2]
    rfl

theorem extendGroup_mem_preserve {m : List (String × List FileInfo)} {k k' : String}
    {l l' : List FileInfo} (hm : (k, l) ∈ m) (hne : k ≠ k') :
    (k, l) ∈ extendGroup m k' l' := by
  induction m with
  | nil => simp at hm
  | cons kv rest ih =>
    obtain ⟨k'', l''⟩ := kv
    by_cases h2 : k'' = k'
    · subst h2
      rcases List.mem_cons.mp hm with he | ht
      · rw [Prod.mk.injEq] at he
        exact absurd he.1 hne
      · simp only [extendGroup, if_pos rfl]
        exact List.mem_cons_of_mem _ ht
    · simp only [extendGroup, if_neg h2]
      rcases List.mem_cons.mp hm with he | ht
      · exact he ▸ List.mem_cons_self _ _
      · exact List.mem_cons_of_mem _ (ih ht)

theorem keysOf_extendGroup_sub :
    ∀ {m : List (String × List FileInfo)} {k x : String} {l : List FileInfo},
      x ∈ keysOf (extendGroup m k l) → x ∈ keysOf m ∨ x = k := by
  intro m
  induction m with
  | nil =>
    intro k x l h
    rw [show extendGroup [] k l = [(k, l)] from rfl, keysOf_cons] at h
    simp only [keysOf, List.map_nil, List.mem_singleton] at h
    exact Or.inr h
  | cons kv rest ih =>
    intro k x l h
    obtain ⟨k', l'⟩ := kv
    by_cases h2 : k' = k
    · rw [show extendGroup ((k', l') :: rest) k l = (k', l' ++ l) :: rest by
        simp [extendGroup, h2]] at h
      rw [keysOf_cons, List.mem_cons] at h
      rcases h with he | ht
      · exact Or.inl (by rw [keysOf_cons, List.mem_cons]; exact Or.inl he)
      · exact Or.inl (by rw [keysOf_cons, List.mem_cons]; exact Or.inr ht)
    · rw [show extendGroup ((k', l') :: rest) k l = (k', l') :: extendGroup rest k l by
        simp [extendGroup, h2]] at h
      rw [keysOf_cons, List.mem_cons] at h
      rcases h with he | ht
      · exact Or.inl (by rw [keysOf_cons, List.mem_cons]; exact Or.inl he)
      · rcases ih ht with hm | he
        · exact Or.inl (by rw [keysOf_cons, List.mem_cons]; exact Or.inr hm)
        · exact Or.inr he

theorem bucketFnames_sub_allFnames {res : CategorizedResults} {e : String}
    {b : ExtBucket} (h : List.lookup e res = some b) {x : String}
    (hx : x ∈ bucketFnames b) : x ∈ allFnames res := by
  have hm := mem_of_lookup h
  simp only [allFnames, List.mem_flatMap]
  exact ⟨(e, b), hm, hx⟩

theorem allFnames_cons (e : String) (b : ExtBucket) (rest : CategorizedResults) :
    allFnames ((e, b) :: rest) = bucketFnames b ++ allFnames rest := by
  simp [allFnames]

theorem allFnames_updateBucket_sub {e : String}
    {f : ExtBucket → ExtBucket} {k : String}
    (hf : ∀ b x, x ∈ bucketFnames (f b) → x ∈ bucketFnames b ∨ x = k) :
    ∀ {res : CategorizedResults} {x},
      x ∈ allFnames (updateBucket res e f) → x ∈ allFnames res ∨ x = k := by
  intro res
  induction res with
  | nil =>
    intro x hx
    have hx' : x ∈ bucketFnames (f emptyBucket) := by
      rw [show updateBucket [] e f = [(e, f emptyBucket)] from rfl,
        allFnames_cons] at hx
      simpa [allFnames] using hx
    rcases hf emptyBucket x hx' with hb | he
    · exact absurd hb (by simp [bucketFnames, emptyBucket, keysOf])
    · exact Or.inr he
  | cons kv rest ih =>
    intro x hx
    obtain ⟨e', b⟩ := kv
    by_cases h2 : e' = e
    · rw [show updateBucket ((e', b) :: rest) e f = (e', f b) :: rest by
        simp [updateBucket, h2]] at hx
      rw [allFnames_cons, List.mem_append] at hx
      rcases hx with hb | ht
      · rcases hf b x hb with hb' | he
        · exact Or.inl (by rw [allFnames_cons, List.mem_append]; exact Or.inl hb')
        · exact Or.inr he
      · exact Or.inl (by rw [allFnames_cons, List.mem_append]; exact Or.inr ht)
    · rw [show updateBucket ((e', b) :: rest) e f = (e', b) :: updateBucket rest e f by
        simp [updateBucket, h2]] at hx
      rw [allFnames_cons, List.mem_append] at hx
      rcases hx with hb | ht
      · exact Or.inl (by rw [allFnames_cons, List.mem_append]; exact Or.inl hb)
      · rcases ih ht with hm | he
        · exact Or.inl (by rw [allFnames_cons, List.mem_append]; exact Or.inr hm)
        · exact Or.inr he

theorem allFnames_addConflict_sub {res : CategorizedResults} {e k : String}
    {l : List FileInfo} {x : String} (hx : x ∈ allFnames (addConflict res e k l)) :
    x ∈ allFnames res ∨ x = k := by
  refine allFnames_updateBucket_sub ?_ hx
  intro b y hy
  simp only [bucketFnames, List.mem_append] at hy ⊢
  rcases hy with hc | hd
  · rcases keysOf_extendGroup_sub hc with hm | he
    · exact Or.inl (Or.inl hm)
    · exact Or.inr he
  · exact Or.inl (Or.inr hd)

theorem allFnames_addDuplicate_sub {res : CategorizedResults} {e k : String}
    {l : List FileInfo} {x : String} (hx : x ∈ allFnames (addDuplicate res e k l)) :
    x ∈ allFnames res ∨ x = k := by
  refine allFnames_updateBucket_sub ?_ hx
  intro b y hy
  simp only [bucketFnames, List.mem_append] at hy ⊢
  rcases hy with hc | hd
  · exact Or.inl (Or.inl hc)
  · rcases keysOf_extendGroup_sub hd with hm | he
    · exact Or.inl (Or.inr hm)
    · exact Or.inr he

theorem allFnames_classify_step_sub {res : CategorizedResults}
    {kv : String × List FileInfo} {x : String}
    (hx : x ∈ allFnames (classify_step res kv)) : x ∈ allFnames res ∨ x = kv.1 := by
  unfold classify_step at hx
  by_cases h1 : 1 < kv.2.length
  · rw [if_pos h1] at hx
    by_cases h2 : isConflictGroup kv.2
    · rw [if_pos h2] at hx
      exact allFnames_addConflict_sub hx
    · rw [if_neg h2] at hx
      exact allFnames_addDuplicate_sub hx
  · rw [if_neg h1] at hx
    exact Or.inl hx

/-! ## Lemmas: soundness of the classification fold -/

theorem lookup_addConflict_self (res : CategorizedResults) (e k : String)
    (l : List FileInfo) :
    List.lookup e (addConflict res e k l) =
      some ⟨extendGroup ((List.lookup e res).getD emptyBucket).conflicts k l,
        ((List.lookup e res).getD emptyBucket).duplicates⟩ := by
  unfold addConflict
  rw [lookup_updateBucket_self]

theorem lookup_addDuplicate_self (res : CategorizedResults) (e k : String)
    (l : List FileInfo) :
    List.lookup e (addDuplicate res e k l) =
      some ⟨((List.lookup e res).getD emptyBucket).conflicts,
        extendGroup ((List.lookup e res).getD emptyBucket).duplicates k l⟩ := by
  unfold addDuplicate
  rw [lookup_updateBucket_self]

theorem SoundAcc_step {D : FileInfoDict} (hD : (keysOf D).Nodup)
    {res : CategorizedResults} {k : String} {l : List FileInfo}
    (hkv : (k, l) ∈ D) (hfresh : k ∉ allFnames res) (hS : SoundAcc D res) :
    SoundAcc D (classify_step res (k, l)) := by
  have hlk : List.lookup k D = some l := lookup_of_mem_nodup hD hkv
  unfold classify_step
  show SoundAcc D
    (if 1 < l.length then
      if isConflictGroup l then addConflict res (extKey k) k l
      else addDuplicate res (extKey k) k l
    else res)
  by_cases h1 : 1 < l.length
  · rw [if_pos h1]
    cases h2 : isConflictGroup l with
    | true =>
      rw [if_pos rfl]
      intro e b hb
      by_cases he : e = extKey k
      · subst he
        rw [lookup_addConflict_self] at hb
        have hb' := (Option.some.inj hb).symm
        subst hb'
        cases hl : List.lookup (extKey k) res with
        | none =>
          constructor
          · intro k' l' hmem
            simp only [hl, Option.getD_none] at hmem
            rw [show emptyBucket.conflicts = [] from rfl] at hmem
            rw [show extendGroup ([] : List (String × List FileInfo)) k l = [(k, l)]
              from rfl] at hmem
            rw [List.mem_singleton, Prod.mk.injEq] at hmem
            obtain ⟨e1, e2⟩ := hmem
            subst e1; subst e2
            exact ⟨rfl, hlk, h1, h2⟩
          · intro k' l' hmem
            simp only [hl, Option.getD_none] at hmem
            rw [show emptyBucket.duplicates = [] from rfl] at hmem
            simp at hmem
        | some bOld =>
          have hkc : k ∉ keysOf bOld.conflicts := by
            intro hc
            exact hfresh (bucketFnames_sub_allFnames hl (by
              rw [bucketFnames, List.mem_append]; exact Or.inl hc))
          constructor
          · intro k' l' hmem
            simp only [hl, Option.getD_some] at hmem
            rw [extendGroup_of_notMem l hkc, List.mem_append] at hmem
            rcases hmem with hold | hnew
            · exact (hS _ _ hl).1 k' l' hold
            · rw [List.mem_singleton, Prod.mk.injEq] at hnew
              obtain ⟨e1, e2⟩ := hnew
              subst e1; subst e2
              exact ⟨rfl, hlk, h1, h2⟩
          · intro k' l' hmem
            simp only [hl, Option.getD_some] at hmem
            exact (hS _ _ hl).2 k' l' hmem
      · unfold addConflict at hb
        rw [lookup_updateBucket_ne _ _ _ _ he] at hb
        exact hS e b hb
    | false =>
      rw [if_neg (by simp)]
      intro e b hb
      by_cases he : e = extKey k
      · subst he
        rw [lookup_addDuplicate_self] at hb
        have hb' := (Option.some.inj hb).symm
        subst hb'
        cases hl : List.lookup (extKey k) res with
        | none =>
          constructor
          · intro k' l' hmem
            simp only [hl, Option.getD_none] at hmem
            rw [show emptyBucket.conflicts = [] from rfl] at hmem
            simp at hmem
          · intro k' l' hmem
            simp only [hl, Option.getD_none] at hmem
            rw [show emptyBucket.duplicates = [] from rfl] at hmem
            rw [show extendGroup ([] : List (String × List FileInfo)) k l = [(k, l)]
              from rfl] at hmem
            rw [List.mem_singleton, Prod.mk.injEq] at hmem
            obtain ⟨e1, e2⟩ := hmem
            subst e1; subst e2
            exact ⟨rfl, hlk, h1, h2⟩
        | some bOld =>
          have hkd : k ∉ keysOf bOld.duplicates := by
            intro hc
            exact hfresh (bucketFnames_sub_allFnames hl (by
              rw [bucketFnames, List.mem_append]; exact Or.inr hc))
          constructor
          · intro k' l' hmem
            simp only [hl, Option.getD_some] at hmem
            exact (hS _ _ hl).1 k' l' hmem
          · intro k' l' hmem
            simp only [hl, Option.getD_some] at hmem
            rw [extendGroup_of_notMem l hkd, List.mem_append] at hmem
            rcases hmem with hold | hnew
            · exact (hS _ _ hl).2 k' l' hold
            · rw [List.mem_singleton, Prod.mk.injEq] at hnew
              obtain ⟨e1, e2⟩ := hnew
              subst e1; subst e2
              exact ⟨rfl, hlk, h1, h2⟩
      · unfold addDuplicate at hb
        rw [lookup_updateBucket_ne _ _ _ _ he] at hb
        exact hS e b hb
  · rw [if_neg h1]
    exact hS

theorem SoundAcc_fold {D : FileInfoDict} (hD : (keysOf D).Nodup) :
    ∀ (suffix : List (String × List FileInfo)) (res : CategorizedResults),
      (∀ kv ∈ suffix, kv ∈ D) → (∀ kv ∈ suffix, kv.1 ∉ allFnames res) →
      (keysOf suffix).Nodup → SoundAcc D res →
      SoundAcc D (suffix.foldl classify_step res) := by
  intro suffix
  induction suffix with
  | nil => intro res _ _ _ hS; simpa using hS
  | cons kv rest ih =>
    intro res hmem hfresh hnodup hS
    obtain ⟨k0, l0⟩ := kv
    rw [keysOf_cons, List.nodup_cons] at hnodup
    simp only [List.foldl_cons]
    apply ih
    · intro kv' h'
      exact hmem kv' (List.mem_cons_of_mem _ h')
    · intro kv' h' hx
      rcases allFnames_classify_step_sub hx with hold | heq
      · exact hfresh kv' (List.mem_cons_of_mem _ h') hold
      · have hk' : kv'.1 ∈ keysOf rest := by
          simpa [keysOf] using List.mem_map_of_mem Prod.fst h'
        have heq' : kv'.1 = k0 := heq
        exact hnodup.1 (heq' ▸ hk')
    · exact hnodup.2
    · exact SoundAcc_step hD (hmem (k0, l0) (List.mem_cons_self _ _))
        (hfresh (k0, l0) (List.mem_cons_self _ _)) hS

/-- Soundness of `classify`: everything a bucket holds is a complete
filename group of the dict, of size ≥ 2, in the mapping its distinct-hash
count dictates, under the bucket of its uppercased extension. -/
theorem classify_sound {D : FileInfoDict} (hD : (keysOf D).Nodup) :
    SoundAcc D (classify D) := by
  refine SoundAcc_fold hD D [] (fun kv h => h) (fun kv h => by simp [allFnames]) hD ?_
  intro e b hb
  simp [List.lookup] at hb

/-! ## Lemmas: completeness of the classification fold -/

theorem classify_step_preserve {res : CategorizedResults}
    {kv : String × List FileInfo} {e : String} {b : ExtBucket}
    (hb : List.lookup e res = some b) {k : String} (hk : kv.1 ≠ k) :
    ∃ b', List.lookup e (classify_step res kv) = some b' ∧
      (∀ l, (k, l) ∈ b.conflicts → (k, l) ∈ b'.conflicts) ∧
      (∀ l, (k, l) ∈ b.duplicates → (k, l) ∈ b'.duplicates) := by
  obtain ⟨k', lg⟩ := kv
  have hk' : k ≠ k' := fun x => hk x.symm
  unfold classify_step
  show ∃ b', List.lookup e
      (if 1 < lg.length then
        if isConflictGroup lg then addConflict res (extKey k') k' lg
        else addDuplicate res (extKey k') k' lg
      else res) = some b' ∧ _
  by_cases h1 : 1 < lg.length
  · rw [if_pos h1]
    cases h2 : isConflictGroup lg with
    | true =>
      rw [if_pos rfl]
      by_cases he : e = extKey k'
      · subst he
        rw [lookup_addConflict_self, hb]
        refine ⟨_, rfl, ?_, ?_⟩
        · intro l hl
          simp only [Option.getD_some]
          exact extendGroup_mem_preserve hl hk'
        · intro l hl
          simpa using hl
      · unfold addConflict
        rw [lookup_updateBucket_ne _ _ _ _ he, hb]
        exact ⟨b, rfl, fun l hl => hl, fun l hl => hl⟩
    | false =>
      rw [if_neg (by simp)]
      by_cases he : e = extKey k'
      · subst he
        rw [lookup_addDuplicate_self, hb]
        refine ⟨_, rfl, ?_, ?_⟩
        · intro l hl
          simpa using hl
        · intro l hl
          simp only [Option.getD_some]
          exact extendGroup_mem_preserve hl hk'
      · unfold addDuplicate
        rw [lookup_updateBucket_ne _ _ _ _ he, hb]
        exact ⟨b, rfl, fun l hl => hl, fun l hl => hl⟩
  · rw [if_neg h1]
    exact ⟨b, hb, fun l hl => hl, fun l hl => hl⟩

theorem classify_fold_preserve :
    ∀ (suffix : List (String × List FileInfo)) {res : CategorizedResults}
      {e : String} {b : ExtBucket} {k : String},
      List.lookup e res = some b → (∀ kv ∈ suffix, kv.1 ≠ k) →
      ∃ b', List.lookup e (suffix.foldl classify_step res) = some b' ∧
        (∀ l, (k, l) ∈ b.conflicts → (k, l) ∈ b'.conflicts) ∧
        (∀ l, (k, l) ∈ b.duplicates → (k, l) ∈ b'.duplicates) := by
  intro suffix
  induction suffix with
  | nil =>
    intro res e b k hb _
    exact ⟨b, hb, fun l hl => hl, fun l hl => hl⟩
  | cons kv rest ih =>
    intro res e b k hb hne
    obtain ⟨b1, hb1, hc1, hd1⟩ :=
      classify_step_preserve hb (hne kv (List.mem_cons_self _ _))
    obtain ⟨b2, hb2, hc2, hd2⟩ :=
      ih hb1 (fun kv' h' => hne kv' (List.mem_cons_of_mem _ h'))
    exact ⟨b2, by simpa using hb2, fun l hl => hc2 l (hc1 l hl),
      fun l hl => hd2 l (hd1 l hl)⟩

theorem classify_step_adds {res : CategorizedResults} {k : String}
    {l : List FileInfo} (hfresh : k ∉ allFnames res) (hlen : 1 < l.length) :
    ∃ b0, List.lookup (extKey k) (classify_step res (k, l)) = some b0 ∧
      (isConflictGroup l = true → (k, l) ∈ b0.conflicts) ∧
      (isConflictGroup l = false → (k, l) ∈ b0.duplicates) := by
  have hold : ∀ bOld, List.lookup (extKey k) res = some bOld →
      k ∉ keysOf bOld.conflicts ∧ k ∉ keysOf bOld.duplicates := by
    intro bOld hl
    constructor
    · intro hc
      exact hfresh (bucketFnames_sub_allFnames hl (by
        rw [bucketFnames, List.mem_append]; exact Or.inl hc))
    · intro hc
      exact hfresh (bucketFnames_sub_allFnames hl (by
        rw [bucketFnames, List.mem_append]; exact Or.inr hc))
  unfold classify_step
  show ∃ b0, List.lookup (extKey k)
      (if 1 < l.length then
        if isConflictGroup l then addConflict res (extKey k) k l
        else addDuplicate res (extKey k) k l
      else res) = some b0 ∧ _
  rw [if_pos hlen]
  cases h2 : isConflictGroup l with
  | true =>
    rw [if_pos rfl, lookup_addConflict_self]
    refine ⟨_, rfl, fun _ => ?_, fun hcon => by simp at hcon⟩
    cases hl : List.lookup (extKey k) res with
    | none =>
      simp only [hl, Option.getD_none]
      rw [show emptyBucket.conflicts = [] from rfl]
      rw [show extendGroup ([] : List (String × List FileInfo)) k l = [(k, l)]
        from rfl]
      exact List.mem_singleton.mpr rfl
    | some bOld =>
      simp only [hl, Option.getD_some]
      rw [extendGroup_of_notMem l (hold bOld hl).1, List.mem_append]
      exact Or.inr (List.mem_singleton.mpr rfl)
  | false =>
    rw [if_neg (by simp), lookup_addDuplicate_self]
    refine ⟨_, rfl, fun hcon => by simp at hcon, fun _ => ?_⟩
    cases hl : List.lookup (extKey k) res with
    | none =>
      simp only [hl, Option.getD_none]
      rw [show emptyBucket.duplicates = [] from rfl]
      rw [show extendGroup ([] : List (String × List FileInfo)) k l = [(k, l)]
        from rfl]
      exact List.mem_singleton.mpr rfl
    | some bOld =>
      simp only [hl, Option.getD_some]
      rw [extendGroup_of_notMem l (hold bOld hl).2, List.mem_append]
      exact Or.inr (List.mem_singleton.mpr rfl)

theorem classify_complete_fold :
    ∀ (suffix : List (String × List FileInfo)) (res : CategorizedResults),
      (keysOf suffix).Nodup → (∀ kv ∈ suffix, kv.1 ∉ allFnames res) →
      ∀ {k : String} {l : List FileInfo}, (k, l) ∈ suffix → 1 < l.length →
      ∃ b, List.lookup (extKey k) (suffix.foldl classify_step res) = some b ∧
        (isConflictGroup l = true → (k, l) ∈ b.conflicts) ∧
        (isConflictGroup l = false → (k, l) ∈ b.duplicates) := by
  intro suffix
  induction suffix with
  | nil => intro res _ _ k l h; simp at h
  | cons kv rest ih =>
    intro res hnodup hfresh k l hmem hlen
    rw [keysOf_cons, List.nodup_cons] at hnodup
    rcases List.mem_cons.mp hmem with heq | ht
    · subst heq
      simp only [List.foldl_cons]
      obtain ⟨b0, hb0, hc0, hd0⟩ :=
        classify_step_adds (hfresh (k, l) (List.mem_cons_self _ _)) hlen
      have hrest : ∀ kv' ∈ rest, kv'.1 ≠ k := by
        intro kv' h' hx
        exact hnodup.1 (hx ▸ (by simpa [keysOf] using List.mem_map_of_mem Prod.fst h'))
      obtain ⟨b', hb', hc', hd'⟩ := classify_fold_preserve rest hb0 hrest
      exact ⟨b', hb', fun hcase => hc' l (hc0 hcase), fun hcase => hd' l (hd0 hcase)⟩
    · simp only [List.foldl_cons]
      obtain ⟨k0, l0⟩ := kv
      refine ih (classify_step res (k0, l0)) hnodup.2 ?_ ht hlen
      intro kv' h' hx
      rcases allFnames_classify_step_sub hx with hold | heqx
      · exact hfresh kv' (List.mem_cons_of_mem _ h') hold
      · have hk' : kv'.1 ∈ keysOf rest := by
          simpa [keysOf] using List.mem_map_of_mem Prod.fst h'
        have heq' : kv'.1 = k0 := heqx
        exact hnodup.1 (heq' ▸ hk')

/-- Completeness of `classify`: every dict group of size ≥ 2 appears, whole,
in the bucket of its uppercased extension, in the mapping its distinct-hash
count dictates. -/
theorem classify_complete {D : FileInfoDict} (hD : (keysOf D).Nodup)
    {k : String} {l : List FileInfo} (hmem : (k, l) ∈ D) (hlen : 1 < l.length) :
    ∃ b, List.lookup (extKey k) (classify D) = some b ∧
      (isConflictGroup l = true → (k, l) ∈ b.conflicts) ∧
      (isConflictGroup l = false → (k, l) ∈ b.duplicates) :=
  classify_complete_fold D [] hD (fun kv _ => by simp [allFnames]) hmem hlen

/-! ## Lemmas: counters of the classification -/

theorem tco_cons (e : String) (b : ExtBucket) (rest : CategorizedResults) :
    total_conflicts_of ((e, b) :: rest) = b.conflicts.length + total_conflicts_of rest := by
  simp [total_conflicts_of]

theorem tdo_cons (e : String) (b : ExtBucket) (rest : CategorizedResults) :
    total_duplicates_of ((e, b) :: rest) =
      b.duplicates.length + total_duplicates_of rest := by
  simp [total_duplicates_of]

theorem tco_addConflict (e k : String) (l : List FileInfo) :
    ∀ res : CategorizedResults, k ∉ allFnames res →
      total_conflicts_of (addConflict res e k l) = total_conflicts_of res + 1 := by
  intro res
  induction res with
  | nil =>
    intro _
    rw [show addConflict [] e k l = [(e, ⟨[(k, l)], []⟩)] from rfl]
    simp [total_conflicts_of]
  | cons kv rest ih =>
    intro hfresh
    obtain ⟨e', b⟩ := kv
    have h1 : k ∉ bucketFnames b := fun h =>
      hfresh (by rw [allFnames_cons, List.mem_append]; exact Or.inl h)
    have h2 : k ∉ allFnames rest := fun h =>
      hfresh (by rw [allFnames_cons, List.mem_append]; exact Or.inr h)
    by_cases he : e' = e
    · subst he
      rw [show addConflict ((e', b) :: rest) e' k l =
          (e', ⟨extendGroup b.conflicts k l, b.duplicates⟩) :: rest by
        simp [addConflict, updateBucket]]
      have hkc : k ∉ keysOf b.conflicts := fun h =>
        h1 (by rw [bucketFnames, List.mem_append]; exact Or.inl h)
      rw [tco_cons, tco_cons, show (⟨extendGroup b.conflicts k l, b.duplicates⟩ :
        ExtBucket).conflicts = extendGroup b.conflicts k l from rfl]
      rw [extendGroup_of_notMem l hkc, List.length_append]
      simp
      omega
    · rw [show addConflict ((e', b) :: rest) e k l =
          (e', b) :: addConflict rest e k l by
        simp [addConflict, updateBucket, he]]
      rw [tco_cons, tco_cons, ih h2]
      omega

theorem tdo_addConflict (e k : String) (l : List FileInfo) :
    ∀ res : CategorizedResults,
      total_duplicates_of (addConflict res e k l) = total_duplicates_of res := by
  intro res
  induction res with
  | nil =>
    rw [show addConflict [] e k l = [(e, ⟨[(k, l)], []⟩)] from rfl]
    simp [total_duplicates_of]
  | cons kv rest ih =>
    obtain ⟨e', b⟩ := kv
    by_cases he : e' = e
    · subst he
      rw [show addConflict ((e', b) :: rest) e' k l =
          (e', ⟨extendGroup b.conflicts k l, b.duplicates⟩) :: rest by
        simp [addConflict, updateBucket]]
      rw [tdo_cons, tdo_cons]
    · rw [show addConflict ((e', b) :: rest) e k l =
          (e', b) :: addConflict rest e k l by
        simp [addConflict, updateBucket, he]]
      rw [tdo_cons, tdo_cons, ih]

theorem tdo_addDuplicate (e k : String) (l : List FileInfo) :
    ∀ res : CategorizedResults, k ∉ allFnames res →
      total_duplicates_of (addDuplicate res e k l) = total_duplicates_of res + 1 := by
  intro res
  induction res with
  | nil =>
    intro _
    rw [show addDuplicate [] e k l = [(e, ⟨[], [(k, l)]⟩)] from rfl]
    simp [total_duplicates_of]
  | cons kv rest ih =>
    intro hfresh
    obtain ⟨e', b⟩ := kv
    have h1 : k ∉ bucketFnames b := fun h =>
      hfresh (by rw [allFnames_cons, List.mem_append]; exact Or.inl h)
    have h2 : k ∉ allFnames rest := fun h =>
      hfresh (by rw [allFnames_cons, List.mem_append]; exact Or.inr h)
    by_cases he : e' = e
    · subst he
      rw [show addDuplicate ((e', b) :: rest) e' k l =
          (e', ⟨b.conflicts, extendGroup b.duplicates k l⟩) :: rest by
        simp [addDuplicate, updateBucket]]
      have hkd : k ∉ keysOf b.duplicates := fun h =>
        h1 (by rw [bucketFnames, List.mem_append]; exact Or.inr h)
      rw [tdo_cons, tdo_cons, show (⟨b.conflicts, extendGroup b.duplicates k l⟩ :
        ExtBucket).duplicates = extendGroup b.duplicates k l from rfl]
      rw [extendGroup_of_notMem l hkd, List.length_append]
      simp
      omega
    · rw [show addDuplicate ((e', b) :: rest) e k l =
          (e', b) :: addDuplicate rest e k l by
        simp [addDuplicate, updateBucket, he]]
      rw [tdo_cons, tdo_cons, ih h2]
      omega

theorem tco_addDuplicate (e k : String) (l : List FileInfo) :
    ∀ res : CategorizedResults,
      total_conflicts_of (addDuplicate res e k l) = total_conflicts_of res := by
  intro res
  induction res with
  | nil =>
    rw [show addDuplicate [] e k l = [(e, ⟨[], [(k, l)]⟩)] from rfl]
    simp [total_conflicts_of]
  | cons kv rest ih =>
    obtain ⟨e', b⟩ := kv
    by_cases he : e' = e
    · subst he
      rw [show addDuplicate ((e', b) :: rest) e' k l =
          (e', ⟨b.conflicts, extendGroup b.duplicates k l⟩) :: rest by
        simp [addDuplicate, updateBucket]]
      rw [tco_cons, tco_cons]
    · rw [show addDuplicate ((e', b) :: rest) e k l =
          (e', b) :: addDuplicate rest e k l by
        simp [addDuplicate, updateBucket, he]]
      rw [tco_cons, tco_cons, ih]

theorem fresh_propagate {res : CategorizedResults} {k0 : String} {l0 : List FileInfo}
    {rest : List (String × List FileInfo)}
    (hfresh : ∀ kv ∈ (k0, l0) :: rest, kv.1 ∉ allFnames res)
    (hnd : k0 ∉ keysOf rest) :
    ∀ kv ∈ rest, kv.1 ∉ allFnames (classify_step res (k0, l0)) := by
  intro kv' h' hx
  rcases allFnames_classify_step_sub hx with hold | heqx
  · exact hfresh kv' (List.mem_cons_of_mem _ h') hold
  · have hk' : kv'.1 ∈ keysOf rest := by
      simpa [keysOf] using List.mem_map_of_mem Prod.fst h'
    have heq' : kv'.1 = k0 := heqx
    exact hnd (heq' ▸ hk')

theorem classify_counts_fold :
    ∀ (suffix : List (String × List FileInfo)) (res : CategorizedResults),
      (keysOf suffix).Nodup → (∀ kv ∈ suffix, kv.1 ∉ allFnames res) →
      total_conflicts_of (suffix.foldl classify_step res) =
        total_conflicts_of res + countConflictGroups suffix ∧
      total_duplicates_of (suffix.foldl classify_step res) =
        total_duplicates_of res + countDuplicateGroups suffix := by
  intro suffix
  induction suffix with
  | nil =>
    intro res _ _
    simp [countConflictGroups, countDuplicateGroups]
  | cons kv rest ih =>
    intro res hnodup hfresh
    obtain ⟨k0, l0⟩ := kv
    rw [keysOf_cons, List.nodup_cons] at hnodup
    simp only [List.foldl_cons]
    have hstep := fresh_propagate hfresh hnodup.1
    have hmain := ih (classify_step res (k0, l0)) hnodup.2 hstep
    by_cases h1 : 1 < l0.length
    · cases h2 : isConflictGroup l0 with
      | true =>
        have hcl : classify_step res (k0, l0) = addConflict res (extKey k0) k0 l0 := by
          unfold classify_step
          show (if 1 < l0.length then
            if isConflictGroup l0 then addConflict res (extKey k0) k0 l0
            else addDuplicate res (extKey k0) k0 l0
          else res) = _
          rw [if_pos h1, h2, if_pos rfl]
        rw [hcl] at hmain ⊢
        refine ⟨?_, ?_⟩
        · rw [hmain.1, tco_addConflict _ _ _ res
            (hfresh (k0, l0) (List.mem_cons_self _ _))]
          rw [show countConflictGroups ((k0, l0) :: rest) =
              countConflictGroups rest + 1 by
            simp [countConflictGroups, List.filter_cons, h1, h2]]
          omega
        · rw [hmain.2, tdo_addConflict]
          rw [show countDuplicateGroups ((k0, l0) :: rest) =
              countDuplicateGroups rest by
            simp [countDuplicateGroups, List.filter_cons, h1, h2]]
      | false =>
        have hcl : classify_step res (k0, l0) = addDuplicate res (extKey k0) k0 l0 := by
          unfold classify_step
          show (if 1 < l0.length then
            if isConflictGroup l0 then addConflict res (extKey k0) k0 l0
            else addDuplicate res (extKey k0) k0 l0
          else res) = _
          rw [if_pos h1, h2, if_neg (by simp)]
        rw [hcl] at hmain ⊢
        refine ⟨?_, ?_⟩
        · rw [hmain.1, tco_addDuplicate]
          rw [show countConflictGroups ((k0, l0) :: rest) =
              countConflictGroups rest by
            simp [countConflictGroups, List.filter_cons, h1, h2]]
        · rw [hmain.2, tdo_addDuplicate _ _ _ res
            (hfresh (k0, l0) (List.mem_cons_self _ _))]
          rw [show countDuplicateGroups ((k0, l0) :: rest) =
              countDuplicateGroups rest + 1 by
            simp [countDuplicateGroups, List.filter_cons, h1, h2]]
          omega
    · have hcl : classify_step res (k0, l0) = res := by
        unfold classify_step
        show (if 1 < l0.length then
          if isConflictGroup l0 then addConflict res (extKey k0) k0 l0
          else addDuplicate res (extKey k0) k0 l0
        else res) = _
        rw [if_neg h1]
      rw [hcl] at hmain ⊢
      refine ⟨?_, ?_⟩
      · rw [hmain.1]
        rw [show countConflictGroups ((k0, l0) :: rest) = countConflictGroups rest by
          simp [countConflictGroups, List.filter_cons, h1]]
      · rw [hmain.2]
        rw [show countDuplicateGroups ((k0, l0) :: rest) = countDuplicateGroups rest by
          simp [countDuplicateGroups, List.filter_cons, h1]]

/-- The GUI-derived counters of a classified dict equal the group counts. -/
theorem classify_counts {D : FileInfoDict} (hD : (keysOf D).Nodup) :
    total_conflicts_of (classify D) = countConflictGroups D ∧
    total_duplicates_of (classify D) = countDuplicateGroups D := by
  have h := classify_counts_fold D [] hD (fun kv _ => by simp [allFnames])
  simpa [classify, total_conflicts_of, total_duplicates_of] using h

/-! ## Lemmas: the v2 counters -/

theorem v2_counts_fold :
    ∀ (suffix : List (String × List FileInfo)) (st : CategorizedResults × Nat × Nat),
      (suffix.foldl v2_classify_step st).2.1 = st.2.1 + v2ConflictSum suffix ∧
      (suffix.foldl v2_classify_step st).2.2 = st.2.2 + countDuplicateGroups suffix := by
  intro suffix
  induction suffix with
  | nil =>
    intro st
    simp [v2ConflictSum, countDuplicateGroups]
  | cons kv rest ih =>
    intro st
    obtain ⟨k0, l0⟩ := kv
    simp only [List.foldl_cons]
    by_cases h1 : 1 < l0.length
    · cases h2 : isConflictGroup l0 with
      | true =>
        have hcl : v2_classify_step st (k0, l0) =
            (addConflict st.1 (extKey k0) k0 l0, st.2.1 + distinctHashCount l0, st.2.2) := by
          unfold v2_classify_step
          show (if 1 < l0.length then
            if isConflictGroup l0 then
              (addConflict st.1 (extKey k0) k0 l0, st.2.1 + distinctHashCount l0, st.2.2)
            else (addDuplicate st.1 (extKey k0) k0 l0, st.2.1, st.2.2 + 1)
          else st) = _
          rw [if_pos h1, h2, if_pos rfl]
        rw [hcl]
        have h := ih (addConflict st.1 (extKey k0) k0 l0,
          st.2.1 + distinctHashCount l0, st.2.2)
        refine ⟨?_, ?_⟩
        · rw [h.1]
          rw [show v2ConflictSum ((k0, l0) :: rest) =
              distinctHashCount l0 + v2ConflictSum rest by
            simp [v2ConflictSum, List.filter_cons, h1, h2]]
          show st.2.1 + distinctHashCount l0 + v2ConflictSum rest =
            st.2.1 + (distinctHashCount l0 + v2ConflictSum rest)
          omega
        · rw [h.2]
          rw [show countDuplicateGroups ((k0, l0) :: rest) =
              countDuplicateGroups rest by
            simp [countDuplicateGroups, List.filter_cons, h1, h2]]
      | false =>
        have hcl : v2_classify_step st (k0, l0) =
            (addDuplicate st.1 (extKey k0) k0 l0, st.2.1, st.2.2 + 1) := by
          unfold v2_classify_step
          show (if 1 < l0.length then
            if isConflictGroup l0 then
              (addConflict st.1 (extKey k0) k0 l0, st.2.1 + distinctHashCount l0, st.2.2)
            else (addDuplicate st.1 (extKey k0) k0 l0, st.2.1, st.2.2 + 1)
          else st) = _
          rw [if_pos h1, h2, if_neg (by simp)]
        rw [hcl]
        have h := ih (addDuplicate st.1 (extKey k0) k0 l0, st.2.1, st.2.2 + 1)
        refine ⟨?_, ?_⟩
        · rw [h.1]
          rw [show v2ConflictSum ((k0, l0) :: rest) = v2ConflictSum rest by
            simp [v2ConflictSum, List.filter_cons, h1, h2]]
        · rw [h.2]
          rw [show countDuplicateGroups ((k0, l0) :: rest) =
              countDuplicateGroups rest + 1 by
            simp [countDuplicateGroups, List.filter_cons, h1, h2]]
          show st.2.2 + 1 + countDuplicateGroups rest =
            st.2.2 + (countDuplicateGroups rest + 1)
          omega
    · have hcl : v2_classify_step st (k0, l0) = st := by
        unfold v2_classify_step
        show (if 1 < l0.length then
          if isConflictGroup l0 then
            (addConflict st.1 (extKey k0) k0 l0, st.2.1 + distinctHashCount l0, st.2.2)
          else (addDuplicate st.1 (extKey k0) k0 l0, st.2.1, st.2.2 + 1)
        else st) = _
        rw [if_neg h1]
      rw [hcl]
      have h := ih st
      refine ⟨?_, ?_⟩
      · rw [h.1]
        rw [show v2ConflictSum ((k0, l0) :: rest) = v2ConflictSum rest by
          simp [v2ConflictSum, List.filter_cons, h1]]
      · rw [h.2]
        rw [show countDuplicateGroups ((k0, l0) :: rest) = countDuplicateGroups rest by
          simp [countDuplicateGroups, List.filter_cons, h1]]

/-- The v2 classification counters: the conflict counter accumulates the
distinct-hash count of every conflict group; the duplicate counter counts
duplicate groups. -/
theorem v2_counts (d : FileInfoDict) :
    (find_collisions_v2_classify d).2.1 = v2ConflictSum d ∧
    (find_collisions_v2_classify d).2.2 = countDuplicateGroups d := by
  have h := v2_counts_fold d ([], 0, 0)
  simpa [find_collisions_v2_classify] using h

/-! ## Lemmas: progress-trace monotonicity -/

theorem chain_le_map_range' (f : Nat → Nat) (hf : ∀ j, f j ≤ f (j + 1)) :
    ∀ (n s : Nat), List.Chain' (fun a b => a ≤ b) ((List.range' s n).map f) := by
  intro n
  induction n with
  | zero => intro s; simp
  | succ m ih =>
    intro s
    rw [List.range'_succ, List.map_cons]
    rw [List.chain'_cons']
    constructor
    · intro h hh
      cases m with
      | zero => simp at hh
      | succ m' =>
        rw [List.range'_succ, List.map_cons, List.head?_cons] at hh
        rw [Option.mem_some_iff] at hh
        rw [← hh]
        exact hf s
    · exact ih (s + 1)

theorem perc_le_90 {n j : Nat} (hn : 0 < n) (hj : j ≤ n) : 10 + j * 80 / n ≤ 90 := by
  have h1 : j * 80 ≤ n * 80 := Nat.mul_le_mul_right 80 hj
  have h2 : j * 80 / n ≤ n * 80 / n := Nat.div_le_div_right h1
  rw [Nat.mul_div_cancel_left 80 hn] at h2
  omega

/-- Monotonicity of the progress trace of one GUI scan with a callback. -/
theorem progress_chain (dirs : List WalkDir) (pats : List String) (excl : Bool) :
    List.Chain' (fun a b => a ≤ b)
      (((find_collisions dirs pats excl true).progress).map Prod.fst) := by
  by_cases h : collect_files dirs pats excl = []
  · rw [find_collisions_progress_empty dirs pats excl h]
    simp
  · rw [find_collisions_progress_shape dirs pats excl h]
    have hn : 0 < (collect_files dirs pats excl).length := List.length_pos.mpr h
    rw [List.map_cons, List.map_append, List.map_map]
    rw [List.chain'_cons']
    set n := (collect_files dirs pats excl).length with hnd
    have hg : (Prod.fst ∘ fun j => hash_msg j n) = fun j => 10 + j * 80 / n := rfl
    rw [hg]
    constructor
    · intro x hx
      rcases Nat.eq_zero_or_pos n with h0 | hpos
      · omega
      · have : 0 < n := hpos
        cases hc : n with
        | zero => omega
        | succ m =>
          rw [hc, List.range'_succ, List.map_cons, List.cons_append,
            List.head?_cons] at hx
          rw [Option.mem_some_iff] at hx
          have h10 : 10 ≤ x := by
            rw [← hx]
            exact Nat.le_add_right 10 _
          omega
    · rw [List.chain'_append]
      refine ⟨chain_le_map_range' _ (fun j => ?_) n 1, by simp, ?_⟩
      · show 10 + j * 80 / n ≤ 10 + (j + 1) * 80 / n
        have h := Nat.div_le_div_right (c := n)
          (Nat.mul_le_mul_right 80 (Nat.le_succ j))
        have h' : j * 80 / n ≤ (j + 1) * 80 / n := by
          simpa [Nat.succ_eq_add_one] using h
        omega
      · intro x hx y hy
        simp only [List.map_cons, List.map_nil, List.head?_cons,
          Option.mem_some_iff] at hy
        have hx' : x ∈ (List.range' 1 n).map (fun j => 10 + j * 80 / n) :=
          mem_of_getLastQ hx
        rw [List.mem_map] at hx'
        obtain ⟨j, hj, hje⟩ := hx'
        rw [List.mem_range'_1] at hj
        have hj' : j ≤ n := by omega
        have := perc_le_90 hn hj'
        omega

/-- With a callback and at least one matched file, the last reported
percentage is 95. -/
theorem progress_last_95 (dirs : List WalkDir) (pats : List String) (excl : Bool)
    (h : collect_files dirs pats excl ≠ []) :
    (((find_collisions dirs pats excl true).progress).map Prod.fst).getLast? =
      some 95 := by
  rw [find_collisions_progress_shape dirs pats excl h]
  rw [List.map_cons, List.map_append, ← List.cons_append]
  rw [show ((95 : Nat), "Analyzing results...") :: ([] : List (Nat × String)) =
    [((95 : Nat), "Analyzing results...")] from rfl]
  rw [List.map_cons, List.map_nil]
  exact List.getLast?_concat _

/-! ## Lemmas: unreadable files are dropped without any other effect -/

theorem build_foldl_filter (cands : List Candidate) :
    ∀ d : FileInfoDict,
      (cands.filter (fun c => (get_file_hash c.file).isSome)).foldl build_step d =
        cands.foldl build_step d := by
  induction cands with
  | nil => intro d; rfl
  | cons c rest ih =>
    intro d
    cases hh : get_file_hash c.file with
    | none =>
      rw [show (c :: rest).filter (fun c => (get_file_hash c.file).isSome) =
          rest.filter (fun c => (get_file_hash c.file).isSome) by
        simp [List.filter_cons, hh]]
      rw [ih, List.foldl_cons, show build_step d c = d by simp [build_step, hh]]
    | some h =>
      rw [show (c :: rest).filter (fun c => (get_file_hash c.file).isSome) =
          c :: rest.filter (fun c => (get_file_hash c.file).isSome) by
        simp [List.filter_cons, hh]]
      rw [List.foldl_cons, List.foldl_cons, ih]

theorem collect_files_drop (dirs : List WalkDir) (pats : List String) (excl : Bool) :
    collect_files (dropUnreadable dirs) pats excl =
      (collect_files dirs pats excl).filter (fun c => (get_file_hash c.file).isSome) := by
  induction dirs with
  | nil => rfl
  | cons d rest ih =>
    obtain ⟨parts, files⟩ := d
    show (((files.filter (fun f => (get_file_hash f).isSome)).filter (fun f =>
        !(is_lightmap excl (str_lower f.name)) &&
          file_matches pats (str_lower f.name))).map (mkCandidate ⟨parts, files⟩)) ++
        collect_files (dropUnreadable rest) pats excl =
      _
    rw [ih]
    rw [show collect_files (⟨parts, files⟩ :: rest) pats excl =
        ((files.filter (fun f => !(is_lightmap excl (str_lower f.name)) &&
          file_matches pats (str_lower f.name))).map (mkCandidate ⟨parts, files⟩)) ++
          collect_files rest pats excl from rfl]
    rw [List.filter_append]
    congr 1
    rw [List.filter_map]
    rw [show ((fun c => (get_file_hash c.file).isSome) ∘ mkCandidate ⟨parts, files⟩) =
      (fun f => (get_file_hash f).isSome) from rfl]
    congr 1
    rw [List.filter_filter, List.filter_filter]
    exact List.filter_congr (fun a _ => Bool.and_comm _ _)

/-- Removing the unreadable files from the tree leaves the grouping dict
unchanged. -/
theorem build_drop (dirs : List WalkDir) (pats : List String) (excl : Bool) :
    build_file_info_dict (collect_files (dropUnreadable dirs) pats excl) =
      build_file_info_dict (collect_files dirs pats excl) := by
  rw [collect_files_drop]
  exact build_foldl_filter _ []

/-! ## Lemmas: the v3 Lua report -/

theorem lua_report_step_snd (st : List String × Option ExtBucket × Bool)
    (kv : String × ExtBucket) : (lua_report_step st kv).2.1 = some kv.2 := by
  unfold lua_report_step
  by_cases h : kv.2.conflicts.isEmpty && kv.2.duplicates.isEmpty
  · rw [if_pos h]
  · rw [if_neg h]

theorem getLastQ_of_cons (b : α) (t : List α) : ∃ x, (b :: t).getLast? = some x := by
  induction t generalizing b with
  | nil => exact ⟨b, by simp⟩
  | cons c t' ih =>
    rw [List.getLast?_cons_cons]
    exact ih c

theorem lua_fold_last (l : List (String × ExtBucket)) :
    ∀ st : List String × Option ExtBucket × Bool,
      (l.foldl lua_report_step st).2.1 =
        match l.getLast? with
        | some kv => some kv.2
        | none => st.2.1 := by
  induction l with
  | nil => intro st; rfl
  | cons kv rest ih =>
    intro st
    simp only [List.foldl_cons]
    rw [ih (lua_report_step st kv), lua_report_step_snd]
    cases rest with
    | nil => simp
    | cons b t =>
      rw [List.getLast?_cons_cons]
      cases hbt : (b :: t).getLast? with
      | none =>
        obtain ⟨x, hx⟩ := getLastQ_of_cons b t
        rw [hbt] at hx
        exact Option.noConfusion hx
      | some x => rfl

theorem length_insertSorted (le : α → α → Bool) (a : α) :
    ∀ l : List α, (insertSorted le a l).length = l.length + 1 := by
  intro l
  induction l with
  | nil => rfl
  | cons b bs ih =>
    unfold insertSorted
    by_cases h : le a b
    · rw [if_pos h]
      rfl
    · rw [if_neg h]
      simp [ih]

theorem length_sortedBy (le : α → α → Bool) (l : List α) :
    (sortedBy le l).length = l.length := by
  induction l with
  | nil => rfl
  | cons a as ih =>
    unfold sortedBy at ih ⊢
    rw [List.foldr_cons, length_insertSorted, ih, List.length_cons]

/-! ## The claims -/

/-- Claim C1: for every filename group of size ≥ 2 that survives hashing,
classification is all-or-nothing: the whole group goes to `conflicts` of its
extension's bucket when the set of distinct content hashes has more than one
element, and to `duplicates` when it has exactly one; the group is never
split between the two mappings. -/
theorem claim_C1 (dirs : List WalkDir) (pats : List String) (excl hasCb : Bool)
    (k : String) (infos : List FileInfo)
    (hmem : List.lookup k (build_file_info_dict (collect_files dirs pats excl)) =
      some infos)
    (hlen : 2 ≤ infos.length) :
    ∃ b, List.lookup (extKey k) (find_collisions dirs pats excl hasCb).results =
      some b ∧
      (1 < distinctHashCount infos →
        ((k, infos) ∈ b.conflicts ∧
          ∀ e' b' l',
            List.lookup e' (find_collisions dirs pats excl hasCb).results = some b' →
            (k, l') ∉ b'.duplicates)) ∧
      (distinctHashCount infos = 1 →
        ((k, infos) ∈ b.duplicates ∧
          ∀ e' b' l',
            List.lookup e' (find_collisions dirs pats excl hasCb).results = some b' →
            (k, l') ∉ b'.conflicts)) := by
  have hnodup := nodup_keysOf_build (collect_files dirs pats excl)
  have hmem' : (k, infos) ∈ build_file_info_dict (collect_files dirs pats excl) :=
    mem_of_lookup hmem
  have hlen' : 1 < infos.length := hlen
  rw [find_collisions_results_eq]
  obtain ⟨b, hb, hc, hd⟩ := classify_complete hnodup hmem' hlen'
  have hsound := classify_sound hnodup
  refine ⟨b, hb, ?_, ?_⟩
  · intro hgt
    have hcg : isConflictGroup infos = true := by
      simpa [isConflictGroup] using hgt
    refine ⟨hc hcg, ?_⟩
    intro e' b' l' hb' hmem2
    obtain ⟨_, hlk, _, hflag⟩ := (hsound e' b' hb').2 k l' hmem2
    rw [hmem] at hlk
    have he := (Option.some.inj hlk).symm
    subst he
    rw [hcg] at hflag
    exact Bool.noConfusion hflag
  · intro hone
    have hcg : isConflictGroup infos = false := by
      simp [isConflictGroup, hone]
    refine ⟨hd hcg, ?_⟩
    intro e' b' l' hb' hmem2
    obtain ⟨_, hlk, _, hflag⟩ := (hsound e' b' hb').1 k l' hmem2
    rw [hmem] at hlk
    have he := (Option.some.inj hlk).symm
    subst he
    rw [hcg] at hflag
    exact Bool.noConfusion hflag

theorem claim_C1_witness :
    ∃ b, List.lookup (extKey ("building.ymap"))
        (find_collisions walkBuilding ["*.ymap"] false false).results = some b ∧
      ("building.ymap", buildingInfos) ∈ b.conflicts := by
  obtain ⟨b, hb, hc, _⟩ := claim_C1 walkBuilding ["*.ymap"] false false
    ("building.ymap") buildingInfos (by decide) (by decide)
  exact ⟨b, hb, (hc (by decide)).1⟩

/-- Claim C2: in every `find_collisions` result, the conflicts and
duplicates mappings are disjoint by filename across all extension buckets,
and every filename present is backed by a group of size ≥ 2 among the hashed
records. -/
theorem claim_C2 (dirs : List WalkDir) (pats : List String) (excl hasCb : Bool) :
    (∀ e1 b1 e2 b2 k l1 l2,
      List.lookup e1 (find_collisions dirs pats excl hasCb).results = some b1 →
      List.lookup e2 (find_collisions dirs pats excl hasCb).results = some b2 →
      (k, l1) ∈ b1.conflicts → (k, l2) ∈ b2.duplicates → False) ∧
    (∀ e b k l,
      List.lookup e (find_collisions dirs pats excl hasCb).results = some b →
      ((k, l) ∈ b.conflicts ∨ (k, l) ∈ b.duplicates) →
      ∃ infos,
        List.lookup k (build_file_info_dict (collect_files dirs pats excl)) =
          some infos ∧ 2 ≤ infos.length) := by
  have hnodup := nodup_keysOf_build (collect_files dirs pats excl)
  have hsound := classify_sound hnodup
  constructor
  · intro e1 b1 e2 b2 k l1 l2 h1 h2 hc hd
    rw [find_collisions_results_eq] at h1 h2
    obtain ⟨_, hlk1, _, hf1⟩ := (hsound e1 b1 h1).1 k l1 hc
    obtain ⟨_, hlk2, _, hf2⟩ := (hsound e2 b2 h2).2 k l2 hd
    rw [hlk1] at hlk2
    have he := Option.some.inj hlk2
    subst he
    rw [hf1] at hf2
    exact Bool.noConfusion hf2
  · intro e b k l hb hmem
    rw [find_collisions_results_eq] at hb
    rcases hmem with hc | hd
    · obtain ⟨_, hlk, hlen, _⟩ := (hsound e b hb).1 k l hc
      exact ⟨l, hlk, hlen⟩
    · obtain ⟨_, hlk, hlen, _⟩ := (hsound e b hb).2 k l hd
      exact ⟨l, hlk, hlen⟩

theorem claim_C2_witness :
    ∃ infos,
      List.lookup ("building.ymap")
        (build_file_info_dict (collect_files walkBuilding ["*.ymap"] false)) =
        some infos ∧ 2 ≤ infos.length :=
  (claim_C2 walkBuilding ["*.ymap"] false false).2 (".YMAP")
    ⟨[("building.ymap", buildingInfos)], []⟩ ("building.ymap") buildingInfos
    (by decide) (Or.inl (by decide))

/-- Claim C3: with `lightMapExclusion` on, no collected candidate is a
lower-cased `.ymap` name matching `lodlights*.ymap` or `vw_*.ymap`,
whatever the include patterns are; and a `.ymap` file matching neither
light-map pattern but matching some include pattern is collected. -/
theorem claim_C3 (dirs : List WalkDir) (pats : List String) :
    (∀ c, c ∈ collect_files dirs pats true →
      ¬(str_endswith c.filename_lower (".ymap") = true ∧
        (fnmatch c.filename_lower ("lodlights*.ymap") = true ∨
          fnmatch c.filename_lower ("vw_*.ymap") = true))) ∧
    (∀ d f, d ∈ dirs → f ∈ d.files →
      str_endswith (str_lower f.name) (".ymap") = true →
      fnmatch (str_lower f.name) ("lodlights*.ymap") = false →
      fnmatch (str_lower f.name) ("vw_*.ymap") = false →
      file_matches pats (str_lower f.name) = true →
      mkCandidate d f ∈ collect_files dirs pats true) := by
  constructor
  · intro c hc
    unfold collect_files at hc
    rw [List.mem_flatMap] at hc
    obtain ⟨d, hd, hcm⟩ := hc
    rw [List.mem_map] at hcm
    obtain ⟨f, hf, hfc⟩ := hcm
    rw [List.mem_filter] at hf
    subst hfc
    rw [Bool.and_eq_true] at hf
    intro hcontra
    obtain ⟨h1, h2⟩ := hcontra
    rw [show (mkCandidate d f).filename_lower = str_lower f.name from rfl] at h1 h2
    have hlm : is_lightmap true (str_lower f.name) = true := by
      unfold is_lightmap lightmap_patterns
      rw [h1]
      rcases h2 with h | h <;> simp [h]
    have hnl := hf.2.1
    rw [hlm] at hnl
    exact Bool.noConfusion hnl
  · intro d f hd hf _hend hlod hvw hmatch
    unfold collect_files
    rw [List.mem_flatMap]
    refine ⟨d, hd, ?_⟩
    rw [List.mem_map]
    refine ⟨f, ?_, rfl⟩
    rw [List.mem_filter, Bool.and_eq_true]
    refine ⟨hf, ?_, hmatch⟩
    have hlm : is_lightmap true (str_lower f.name) = false := by
      unfold is_lightmap lightmap_patterns
      simp [hlod, hvw]
    rw [hlm]
    rfl

theorem claim_C3_witness :
    (mkCandidate lightsDir normalFile ∈ collect_files walkLights ["*.ymap"] true) ∧
    ¬(str_endswith (mkCandidate lightsDir normalFile).filename_lower (".ymap") = true ∧
      (fnmatch (mkCandidate lightsDir normalFile).filename_lower
        ("lodlights*.ymap") = true ∨
       fnmatch (mkCandidate lightsDir normalFile).filename_lower
        ("vw_*.ymap") = true)) := by
  constructor
  · exact (claim_C3 walkLights ["*.ymap"]).2 lightsDir normalFile (by decide)
      (by decide) (by decide) (by decide) (by decide) (by decide)
  · refine (claim_C3 walkLights ["*.ymap"]).1 (mkCandidate lightsDir normalFile) ?_
    exact (claim_C3 walkLights ["*.ymap"]).2 lightsDir normalFile (by decide)
      (by decide) (by decide) (by decide) (by decide) (by decide)

/-- Claim C4 (counterexample): in the v3 CLI variant (cited for this claim),
a file directly in the scan root gets resource name `"."`, not the reserved
sentinel `"ROOT_DIR"`. -/
theorem claim_C4_counterexample :
    (collect_files_v3cli walkRootFile ["*.ymap"] false).map Candidate.resource =
      ["."] ∧ ("." : String) ≠ "ROOT_DIR" := by
  decide

/-- Claim C4 (amended): in the GUI variant, a collected file's resource is
the first component of its directory's relative path when that component is
not `"."`, and `"ROOT_DIR"` for files directly in the root.  (The sentinel is
not reserved: a real subdirectory named `ROOT_DIR` or a root file in the
other two variants can produce colliding labels.) -/
theorem claim_C4_amended (dirs : List WalkDir) (pats : List String) (excl : Bool)
    (c : Candidate) (hc : c ∈ collect_files dirs pats excl) :
    (c.dirParts = [] → c.resource = "ROOT_DIR") ∧
    (∀ p ps, c.dirParts = p :: ps → p ≠ "." → c.resource = p) := by
  unfold collect_files at hc
  rw [List.mem_flatMap] at hc
  obtain ⟨d, hd, hcm⟩ := hc
  rw [List.mem_map] at hcm
  obtain ⟨f, hf, hfc⟩ := hcm
  subst hfc
  constructor
  · intro h
    show resource_name_gui d.parts = "ROOT_DIR"
    rw [show (mkCandidate d f).dirParts = d.parts from rfl] at h
    rw [h]
    decide
  · intro p ps h hp
    show resource_name_gui d.parts = p
    rw [show (mkCandidate d f).dirParts = d.parts from rfl] at h
    rw [h]
    unfold resource_name_gui relpath_parts
    simp [hp]

theorem claim_C4_witness :
    (mkCandidate rootDirDemo rootFileDemo).resource = "ROOT_DIR" :=
  (claim_C4_amended walkRootFile ["*.ymap"] false
    (mkCandidate rootDirDemo rootFileDemo) (by decide)).1 rfl

/-- Claim C5 (counterexample): the v2 CLI conflict counter (cited for this
claim) is not a count of conflict groups: one conflict group with two
distinct hashes makes it 2, while the group count is 1. -/
theorem claim_C5_counterexample :
    (find_collisions_v2_classify conflictPairDict).2.1 = 2 ∧
    countConflictGroups conflictPairDict = 1 := by
  decide

/-- Claim C5 (amended): the counters the GUI derives from the
ClassificationResult equal the group counts (conflict groups are filenames
with ≥ 2 records and > 1 distinct hash, duplicate groups those with exactly
one distinct hash); the v2 CLI's duplicate counter also counts groups, but
its conflict counter instead sums the distinct-hash count of every conflict
group. -/
theorem claim_C5_amended (dirs : List WalkDir) (pats : List String)
    (excl hasCb : Bool) :
    total_conflicts_of (find_collisions dirs pats excl hasCb).results =
      countConflictGroups (build_file_info_dict (collect_files dirs pats excl)) ∧
    total_duplicates_of (find_collisions dirs pats excl hasCb).results =
      countDuplicateGroups (build_file_info_dict (collect_files dirs pats excl)) ∧
    (∀ d : FileInfoDict,
      (find_collisions_v2_classify d).2.1 = v2ConflictSum d ∧
      (find_collisions_v2_classify d).2.2 = countDuplicateGroups d) := by
  refine ⟨?_, ?_, fun d => v2_counts d⟩
  · rw [find_collisions_results_eq]
    exact (classify_counts (nodup_keysOf_build _)).1
  · rw [find_collisions_results_eq]
    exact (classify_counts (nodup_keysOf_build _)).2

/-- Claim C6: an unreadable file yields an absent hash rather than an
exception, and removing all unreadable files from the tree changes nothing
in the returned triple: such files contribute no record and appear nowhere
in the result, and no error about them is surfaced. -/
theorem claim_C6 :
    (∀ f : FsFile, f.digest = none → get_file_hash f = none) ∧
    (∀ (dirs : List WalkDir) (pats : List String) (excl hasCb : Bool),
      (find_collisions (dropUnreadable dirs) pats excl hasCb).results =
        (find_collisions dirs pats excl hasCb).results ∧
      (find_collisions (dropUnreadable dirs) pats excl hasCb).files_to_search_list =
        (find_collisions dirs pats excl hasCb).files_to_search_list ∧
      (find_collisions (dropUnreadable dirs) pats excl hasCb).ignored_patterns_list =
        (find_collisions dirs pats excl hasCb).ignored_patterns_list) := by
  constructor
  · intro f h
    exact h
  · intro dirs pats excl hasCb
    refine ⟨?_, ?_, ?_⟩
    · rw [find_collisions_results_eq, find_collisions_results_eq, build_drop]
    · rw [find_collisions_fts_eq, find_collisions_fts_eq]
    · rw [find_collisions_ignored_eq, find_collisions_ignored_eq]

theorem claim_C6_witness :
    get_file_hash ⟨"locked.ymap", none⟩ = none ∧
    (find_collisions (dropUnreadable walkUnreadable) ["*.ymap"] false true).results =
      (find_collisions walkUnreadable ["*.ymap"] false true).results :=
  ⟨claim_C6.1 ⟨"locked.ymap", none⟩ rfl,
    (claim_C6.2 walkUnreadable ["*.ymap"] false true).1⟩

/-- Claim C7 (counterexample): a scan that matches one file ends its
callback sequence at percentage 95, not 100. -/
theorem claim_C7_counterexample :
    (((find_collisions walkRootFile ["*.ymap"] false true).progress).map
      Prod.fst).getLast? = some 95 ∧ (95 : Nat) ≠ 100 := by
  decide

/-- Claim C7 (amended): with a callback supplied, the reported percentages
are monotonically non-decreasing; the final invocation reports 100 when no
file matched and 95 when at least one did. -/
theorem claim_C7_amended (dirs : List WalkDir) (pats : List String) (excl : Bool) :
    List.Chain' (fun a b => a ≤ b)
      (((find_collisions dirs pats excl true).progress).map Prod.fst) ∧
    (collect_files dirs pats excl = [] →
      (find_collisions dirs pats excl true).progress.getLast? =
        some (100, "No relevant files found.")) ∧
    (collect_files dirs pats excl ≠ [] →
      (((find_collisions dirs pats excl true).progress).map Prod.fst).getLast? =
        some 95) := by
  refine ⟨progress_chain dirs pats excl, ?_, ?_⟩
  · intro h
    rw [find_collisions_progress_empty dirs pats excl h]
    simp
  · intro h
    exact progress_last_95 dirs pats excl h

theorem claim_C7_witness :
    List.Chain' (fun a b => a ≤ b)
      (((find_collisions walkBuilding ["*.ymap"] false true).progress).map
        Prod.fst) ∧
    (((find_collisions walkBuilding ["*.ymap"] false true).progress).map
      Prod.fst).getLast? = some 95 :=
  ⟨(claim_C7_amended walkBuilding ["*.ymap"] false).1,
    (claim_C7_amended walkBuilding ["*.ymap"] false).2.2 (by decide)⟩

/-- Claim C8: supplying or omitting the progress callback changes nothing in
the returned triple (results, searched patterns, ignored patterns); it only
controls the progress notifications. -/
theorem claim_C8 (dirs : List WalkDir) (pats : List String) (excl : Bool) :
    (find_collisions dirs pats excl true).results =
      (find_collisions dirs pats excl false).results ∧
    (find_collisions dirs pats excl true).files_to_search_list =
      (find_collisions dirs pats excl false).files_to_search_list ∧
    (find_collisions dirs pats excl true).ignored_patterns_list =
      (find_collisions dirs pats excl false).ignored_patterns_list := by
  refine ⟨?_, ?_, ?_⟩
  · rw [find_collisions_results_eq, find_collisions_results_eq]
  · rw [find_collisions_fts_eq, find_collisions_fts_eq]
  · rw [find_collisions_ignored_eq, find_collisions_ignored_eq]

/-- Claim C9: every group list reported in the result (conflict or
duplicate) is exactly the discovery-ordered list of its successfully hashed
records: insertion order is preserved through hashing and classification. -/
theorem claim_C9 (dirs : List WalkDir) (pats : List String) (excl hasCb : Bool)
    (e : String) (b : ExtBucket) (k : String) (infos : List FileInfo)
    (hb : List.lookup e (find_collisions dirs pats excl hasCb).results = some b)
    (hmem : (k, infos) ∈ b.conflicts ∨ (k, infos) ∈ b.duplicates) :
    infos = groupList (collect_files dirs pats excl) k := by
  rw [find_collisions_results_eq] at hb
  have hnodup := nodup_keysOf_build (collect_files dirs pats excl)
  have hsound := classify_sound hnodup
  have hlk : List.lookup k (build_file_info_dict (collect_files dirs pats excl)) =
      some infos := by
    rcases hmem with hc | hd
    · exact ((hsound e b hb).1 k infos hc).2.1
    · exact ((hsound e b hb).2 k infos hd).2.1
  rw [lookup_build] at hlk
  by_cases hg : groupList (collect_files dirs pats excl) k = []
  · rw [if_pos hg] at hlk
    exact Option.noConfusion hlk
  · rw [if_neg hg] at hlk
    exact (Option.some.inj hlk).symm

theorem claim_C9_witness :
    buildingInfos = groupList (collect_files walkBuilding ["*.ymap"] false)
      ("building.ymap") :=
  claim_C9 walkBuilding ["*.ymap"] false false (".YMAP")
    ⟨[("building.ymap", buildingInfos)], []⟩ ("building.ymap") buildingInfos
    (by decide) (Or.inl (by decide))

/-- Claim C10: the v3 CLI `_generate_lua_report` reads the loop variable
`data` after the per-extension loop, so (a) with an empty
`categorized_results` it raises `NameError` (modelled as `none`) instead of
returning a report, and (b) with a non-empty input its final summary prints
the conflict/duplicate group counts of only the last-sorted extension
bucket — (c) the `total_conflicts`/`total_duplicates` arguments never
influence the output. -/
theorem claim_C10 :
    (∀ (dir st : String) (tc td : Nat) (fs ig : List String),
      generate_lua_report_v3_lines dir st [] tc td fs ig = none) ∧
    (∀ (dir st : String) (cats : CategorizedResults) (tc td : Nat)
      (fs ig : List String), cats ≠ [] →
      ∃ pre data, (sortedBy extLe cats).getLast? = some data ∧
        generate_lua_report_v3_lines dir st cats tc td fs ig =
          some (pre ++
            ["\n", "-- --- Final Summary ---",
              "-- Total Critical Conflicts Found: " ++
                toString data.2.conflicts.length,
              "-- Total Redundant Duplicates Found: " ++
                toString data.2.duplicates.length,
              "-- ###################################################"])) ∧
    (∀ (dir st : String) (cats : CategorizedResults) (tc tc' td td' : Nat)
      (fs ig : List String),
      generate_lua_report_v3_lines dir st cats tc td fs ig =
        generate_lua_report_v3_lines dir st cats tc' td' fs ig) := by
  refine ⟨fun dir st tc td fs ig => rfl, ?_,
    fun dir st cats tc tc' td td' fs ig => rfl⟩
  intro dir st cats tc td fs ig hne
  have hlen : (sortedBy extLe cats).length = cats.length := length_sortedBy _ _
  have hsne : sortedBy extLe cats ≠ [] := by
    intro h0
    rw [h0] at hlen
    exact hne (List.length_eq_zero.mp hlen.symm)
  obtain ⟨b0, t0, hbt⟩ : ∃ b0 t0, sortedBy extLe cats = b0 :: t0 := by
    cases hs : sortedBy extLe cats with
    | nil => exact absurd hs hsne
    | cons b0 t0 => exact ⟨b0, t0, rfl⟩
  have hex : ∃ data, (sortedBy extLe cats).getLast? = some data := by
    rw [hbt]
    exact getLastQ_of_cons b0 t0
  obtain ⟨data, hdata⟩ := hex
  have h21 := lua_fold_last (sortedBy extLe cats)
    (lua_header_lines dir st fs ig, none, true)
  rw [hdata] at h21
  have h21' : ((sortedBy extLe cats).foldl lua_report_step
      (lua_header_lines dir st fs ig, none, true)).2.1 = some data.2 := h21
  refine ⟨((sortedBy extLe cats).foldl lua_report_step
    (lua_header_lines dir st fs ig, none, true)).1, data, hdata, ?_⟩
  show (match ((sortedBy extLe cats).foldl lua_report_step
      (lua_header_lines dir st fs ig, none, true)).2.1 with
    | none => none
    | some d =>
      some (((sortedBy extLe cats).foldl lua_report_step
          (lua_header_lines dir st fs ig, none, true)).1 ++
        ["\n", "-- --- Final Summary ---",
          "-- Total Critical Conflicts Found: " ++ toString d.conflicts.length,
          "-- Total Redundant Duplicates Found: " ++ toString d.duplicates.length,
          "-- ###################################################"])) = _
  rw [h21']

theorem claim_C10_witness :
    ∃ pre data, (sortedBy extLe demoCats).getLast? = some data ∧
      generate_lua_report_v3_lines ("C:/resources") ("2026-10-12 00:00:00")
        demoCats 7 9 ["*.ymap"] [] =
        some (pre ++
          ["\n", "-- --- Final Summary ---",
            "-- Total Critical Conflicts Found: " ++
              toString data.2.conflicts.length,
            "-- Total Redundant Duplicates Found: " ++
              toString data.2.duplicates.length,
            "-- ###################################################"]) :=
  claim_C10.2.1 ("C:/resources") ("2026-10-12 00:00:00") demoCats 7 9
    ["*.ymap"] [] (by decide)

end JimG
